import Mathlib

/-!
# logrusrotate: a shallow embedding of `logrusrotate.go`

The engine (`Logrotate`) lives in a `World` together with the parts of the
process it acts on: the file system, the output destination of the logrus
logger it was given, the output destination of the standard library's default
logger, and the liveness of the goroutine running `rotate`.

Operating-system and library calls (`os.Stat`, `os.OpenFile`, `os.Remove`,
`os.Link`, `(*os.File).Close`, `strconv.ParseInt`, `fmt.Sprintf("%d", _)`) are
modelled below; `filepath.Dir` and `time.Time.Format` are taken as parameters
(`Lib`). A file's content is a list of lines and every write appends one.

The ticker and the channels are not state of the model: a timer firing and a
message on a channel are events (`LoopMsg`), each handled by one iteration of
`rotate`. Method calls and loop iterations are atomic, so a run is a sequence
of events (`Event`); a panic ends it.
-/

namespace Logrusrotate

/-! ## Machine integers -/

/-- Two's-complement wrap-around of an `int64` result. -/
def wrap64 (x : Int) : Int :=
  (x + 9223372036854775808) % 18446744073709551616 - 9223372036854775808

/-- Rendering of `fmt.Sprintf("%d", x)` for an `int64`. -/
def sprintD (x : Int) : String :=
  if x < 0 then "-" ++ Nat.repr x.natAbs else Nat.repr x.natAbs

/-! ## Time -/

/-- An instant (`time.Time`), as nanoseconds since the Unix epoch. -/
abbrev Time := Int

/-- The sentinel `time.UnixMicro(0)`. -/
def unixMicroZero : Time := 0

/-- The value `time.Duration(interval) * time.Second` (an `int64` product). -/
def tickerDuration (interval : Int) : Int := wrap64 (interval * 1000000000)

/-- Library functions taken as parameters. -/
structure Lib where
  /-- The function `filepath.Dir`. -/
  dirOf : String → String
  /-- The method `t.Format(layout)`. -/
  format : Time → String → String

/-! ## strconv.ParseInt (base 10, 32 bits) -/

/-- Errors of `strconv`. -/
inductive NumError
  | ErrSyntax
  | ErrRange
deriving DecidableEq, Repr

/-- One byte of the digit loop of `strconv.ParseUint`: its value as a digit,
    when it is a decimal digit or an ASCII letter. -/
def digitOf (c : Char) : Option Nat :=
  if 48 ≤ c.toNat ∧ c.toNat ≤ 57 then some (c.toNat - 48)
  else if 97 ≤ c.toNat ∧ c.toNat ≤ 122 then some (c.toNat - 97 + 10)
  else if 65 ≤ c.toNat ∧ c.toNat ≤ 90 then some (c.toNat - 65 + 10)
  else none

/-- The digit loop of `strconv.ParseUint(s, 10, 32)`, with accumulator `n` (a `uint64`). -/
def parseUintLoop (n : Nat) : List Char → Except NumError Nat
  | [] => .ok n
  | c :: cs =>
    match digitOf c with
    | none => .error .ErrSyntax
    | some d =>
      if d ≥ 10 then .error .ErrSyntax
      else if n ≥ 1844674407370955162 then .error .ErrRange
      else
        let n10 := n * 10 % 18446744073709551616
        let n1 := (n10 + d) % 18446744073709551616
        if n1 < n10 ∨ n1 > 4294967295 then .error .ErrRange
        else parseUintLoop n1 cs

/-- The call `strconv.ParseUint(s, 10, 32)`. -/
def parseUint (s : List Char) : Except NumError Nat :=
  match s with
  | [] => .error .ErrSyntax
  | _ => parseUintLoop 0 s

/-- The call `strconv.ParseInt(s, 10, 32)`. -/
def parseInt (s : List Char) : Except NumError Int :=
  match s with
  | [] => .error .ErrSyntax
  | c :: cs =>
    let neg := c = '-'
    let body := if c = '+' ∨ c = '-' then cs else c :: cs
    match parseUint body with
    | .error e => .error e
    | .ok un =>
      if ¬ neg ∧ un ≥ 2147483648 then .error .ErrRange
      else if neg ∧ un > 2147483648 then .error .ErrRange
      else .ok (if neg then - (un : Int) else (un : Int))

/-- The constant `parsedIncrementFormat`. -/
def parsedIncrementFormat : Int := 8

/-! ## File system -/

/-- What a path names. -/
inductive Entry
  | file (ino : Nat)
  | dir
deriving DecidableEq, Repr

/-- Error numbers of the system calls used. -/
inductive Errno
  | ENOENT
  | EEXIST
  | EISDIR
  | ENOTDIR
  | EPERM
  | ENOTEMPTY
  | EINVAL
  | ErrClosed
deriving DecidableEq, Repr

/-- An open file (`*os.File`, non-nil): its descriptor and the inode it refers to. -/
structure File where
  fd : Nat
  ino : Nat
deriving DecidableEq, Repr

/-- The file system and the process's descriptor table.
    `entries` maps a path to what it names, `data` gives each inode's content
    as a list of lines, `openFds` lists the descriptors not yet closed. -/
structure FS where
  entries : AList (fun _ : String => Entry)
  data : Nat → List String
  nextIno : Nat
  nextFd : Nat
  openFds : List Nat

/-- Lookup of a path. -/
def FS.lookup (fs : FS) (p : String) : Option Entry := fs.entries.lookup p

/-- The paths that name inode `i`. -/
def FS.links (fs : FS) (i : Nat) : List String :=
  fs.entries.keys.filter (fun p => fs.entries.lookup p = some (Entry.file i))

/-- The link count of inode `i`. -/
def FS.nlink (fs : FS) (i : Nat) : Nat := (fs.links i).length

/-- An inode number used by no path and never handed out before. -/
def FS.freshIno (fs : FS) : Nat :=
  fs.entries.entries.foldr
    (fun e m => match e.2 with
      | Entry.file i => if m ≤ i then i + 1 else m
      | Entry.dir => m)
    fs.nextIno

/-- The call `os.OpenFile(path, O_WRONLY | flags, 0644)` with `O_CREATE` and `O_TRUNC`
    as given (`O_APPEND` does not change this model, where every write appends). -/
def openFile (L : Lib) (fs : FS) (path : String) (create trunc : Bool) :
    Except Errno (FS × File) :=
  match fs.lookup path with
  | some Entry.dir => .error .EISDIR
  | some (Entry.file i) =>
    .ok ({ fs with
            data := if trunc then Function.update fs.data i [] else fs.data
            nextFd := fs.nextFd + 1
            openFds := fs.nextFd :: fs.openFds }, ⟨fs.nextFd, i⟩)
  | none =>
    if create then
      match fs.lookup (L.dirOf path) with
      | some Entry.dir =>
        .ok ({ entries := fs.entries.insert path (Entry.file fs.freshIno)
               data := Function.update fs.data fs.freshIno []
               nextIno := fs.freshIno + 1
               nextFd := fs.nextFd + 1
               openFds := fs.nextFd :: fs.openFds }, ⟨fs.nextFd, fs.freshIno⟩)
      | some (Entry.file _) => .error .ENOTDIR
      | none => .error .ENOENT
    else .error .ENOENT

/-- The call `f.Close()`, on a possibly nil `*os.File`. -/
def closeFile (fs : FS) (f : Option File) : FS × Option Errno :=
  match f with
  | none => (fs, some .EINVAL)
  | some f =>
    if f.fd ∈ fs.openFds then ({ fs with openFds := fs.openFds.filter (fun d => d ≠ f.fd) }, none)
    else (fs, some .ErrClosed)

/-- The call `os.Remove(path)`: unlinks a file, or removes a directory with no entry in it. -/
def remove (L : Lib) (fs : FS) (path : String) : FS × Option Errno :=
  match fs.lookup path with
  | none => (fs, some .ENOENT)
  | some (Entry.file _) => ({ fs with entries := fs.entries.erase path }, none)
  | some Entry.dir =>
    if fs.entries.keys.all (fun q => L.dirOf q != path) then
      ({ fs with entries := fs.entries.erase path }, none)
    else (fs, some .ENOTEMPTY)

/-- The call `os.Link(oldname, newname)`. -/
def link (L : Lib) (fs : FS) (oldname newname : String) : FS × Option Errno :=
  match fs.lookup oldname with
  | none => (fs, some .ENOENT)
  | some Entry.dir => (fs, some .EPERM)
  | some (Entry.file i) =>
    match fs.lookup newname with
    | some _ => (fs, some .EEXIST)
    | none =>
      match fs.lookup (L.dirOf newname) with
      | some Entry.dir => ({ fs with entries := fs.entries.insert newname (Entry.file i) }, none)
      | some (Entry.file _) => (fs, some .ENOTDIR)
      | none => (fs, some .ENOENT)

/-- A write of one line through an open file; fails on a closed descriptor. -/
def writeFile (fs : FS) (f : File) (line : String) : FS × Option Errno :=
  if f.fd ∈ fs.openFds then
    ({ fs with data := Function.update fs.data f.ino (fs.data f.ino ++ [line]) }, none)
  else (fs, some .ErrClosed)

/-! ## The engine -/

/-- An output destination (`io.Writer`): a file, or anything else (such as `os.Stderr`). -/
inductive Writer
  | other
  | file (f : File)
deriving DecidableEq, Repr

/-- A Go `error` value that is not nil. -/
inductive GoErr
  | sys (e : Errno)
  | text (msg : String)
  | errorf (msg : String) (cause : Errno)
deriving DecidableEq, Repr

/-- The struct `Logrotate`. The ticker and the two channels are represented by
    the events of `Event`; `log` is represented by `World.logOut`. -/
structure Logrotate where
  active : Bool
  basePath : String
  interval : Int
  sizeMb : Int
  format : String
  useIncrement : Bool
  incrementedSuffix : Int
  f : Option File
  verbose : Bool

/-- The engine and the process state it acts on. -/
structure World where
  l : Logrotate
  fs : FS
  /-- Output destination of the logrus logger `l.log`. -/
  logOut : Writer
  /-- Output destination of the default logger of the standard package `log`. -/
  stdLogOut : Writer
  /-- Whether the goroutine running `rotate` is still in its loop. -/
  loopAlive : Bool

/-- The method `getSuffix`; `now` is what `time.Now()` returns. -/
def Logrotate.getSuffix (L : Lib) (l : Logrotate) (t now : Time) : String × Logrotate :=
  let t1 := if t = unixMicroZero then now else t
  if l.useIncrement then
    (sprintD l.incrementedSuffix,
     { l with incrementedSuffix := wrap64 (l.incrementedSuffix + 1) })
  else
    (L.format t1 l.format, l)

/-- The call `l.log.Info(msg)`: one line to the logrus logger's output. -/
def logInfo (w : World) (msg : String) : World :=
  match w.logOut with
  | Writer.other => w
  | Writer.file f => { w with fs := (writeFile w.fs f msg).1 }

/-- The method `Start`. The result is `none` when `ticker.Reset` panics. -/
def Start (L : Lib) (w : World) (now : Time) : Option (Option GoErr × World) :=
  match openFile L w.fs w.l.basePath true false with
  | .error e => some (some (GoErr.sys e), { w with l := { w.l with f := none } })
  | .ok (fs1, f) =>
    let sl := w.l.getSuffix L now now
    let pathWithSuffix := w.l.basePath ++ "." ++ sl.1
    let l1 : Logrotate := { sl.2 with f := some f }
    match link L fs1 w.l.basePath pathWithSuffix with
    | (fs2, some e) =>
      some (some (GoErr.errorf "error linking log file: " e),
            { w with l := l1, fs := fs2, logOut := Writer.file f })
    | (fs2, none) =>
      if tickerDuration w.l.interval ≤ 0 then none
      else
        some (none,
              { w with l := { l1 with active := true }, fs := fs2, logOut := Writer.file f })

/-- The method `Stop`. -/
def Stop (w : World) : World := { w with l := { w.l with active := false } }

/-- The method `SetVerbose`. -/
def SetVerbose (w : World) (v : Bool) : World := { w with l := { w.l with verbose := v } }

/-- The method `rotateLog`. -/
def rotateLog (L : Lib) (w : World) (t now : Time) : Option GoErr × World :=
  if ¬ w.l.active then (none, w)
  else
    let sl := w.l.getSuffix L t now
    let pathWithSuffix := w.l.basePath ++ "." ++ sl.1
    match openFile L w.fs pathWithSuffix true true with
    | .error e =>
      (some (GoErr.errorf "log rotation error, cannot create new file: " e), { w with l := sl.2 })
    | .ok (fs1, newF) =>
      let fs2 := (closeFile fs1 w.l.f).1
      let fs3 := (remove L fs2 w.l.basePath).1
      let fs4 := (link L fs3 pathWithSuffix w.l.basePath).1
      (none,
       { w with l := { sl.2 with f := some newF }, fs := fs4, stdLogOut := Writer.file newF })

/-- The method `Rotate`. -/
def Rotate (L : Lib) (w : World) (now : Time) : Option GoErr × World :=
  let w1 := if w.l.verbose then logInfo w "forced log rotation" else w
  rotateLog L w1 unixMicroZero now

/-- What the goroutine running `rotate` can receive in its `select`. -/
inductive LoopMsg
  | appDone
  | tick (t : Time)
  | forceRotate (t : Time)
deriving DecidableEq, Repr

/-- The method `rotate`, which runs in its own goroutine, one iteration of its
    loop at a time: `m` is what the `select` receives. An iteration that returns
    ends the loop, and a goroutine that has returned does nothing. -/
def rotate (L : Lib) (w : World) (m : LoopMsg) (now : Time) : World :=
  if ¬ w.loopAlive then w
  else
    match m with
    | LoopMsg.appDone => { w with loopAlive := false }
    | LoopMsg.tick t =>
      let w1 := if w.l.verbose then logInfo w "scheduled log rotation" else w
      let r := rotateLog L w1 t now
      if r.1.isSome then { r.2 with loopAlive := false } else r.2
    | LoopMsg.forceRotate t =>
      let w1 := if w.l.verbose then logInfo w "forced log rotation" else w
      let r := rotateLog L w1 t now
      if r.1.isSome then { r.2 with loopAlive := false } else r.2

/-- The check `strconv.ParseInt(format, 10, 32)` of `New`. -/
def useIncrementOf (format : String) : Bool :=
  match parseInt format.data with
  | .ok intFmt => intFmt = parsedIncrementFormat
  | .error _ => false

/-- The engine as `New` builds it, in the world right before `New` calls
    `l.Start()`: the struct literal, the `useIncrement` check, `os.Remove(l.basePath)`
    and the goroutine started by `go l.rotate()`. -/
def initWorld (L : Lib) (fs : FS) (logOut stdLogOut : Writer)
    (basePath : String) (interval sizeMb : Int) (format : String) : World :=
  { l := { active := false, basePath := basePath, interval := interval, sizeMb := sizeMb
           format := format, useIncrement := useIncrementOf format, incrementedSuffix := 0
           f := none, verbose := false }
    fs := (remove L fs basePath).1
    logOut := logOut
    stdLogOut := stdLogOut
    loopAlive := true }

/-- The constructor `New`. The outer `none` is a panic of `time.NewTicker`
    (a duration that is not positive); `.error` is a returned error, with the
    world left as it was; `.ok w` is a nil error, with the world `w` holding the
    engine returned. The result of `l.Start()` is dropped, as in the source. -/
def New (L : Lib) (fs : FS) (logOut stdLogOut : Writer) (now : Time)
    (basePath : String) (interval sizeMb : Int) (format : String) :
    Option (Except GoErr World) :=
  match fs.lookup (L.dirOf basePath) with
  | none => some (.error (GoErr.sys .ENOENT))
  | some (Entry.file _) => some (.error (GoErr.text "invalid base path"))
  | some Entry.dir =>
    if fs.lookup basePath = some Entry.dir then
      some (.error (GoErr.text "log base path is a directory"))
    else if tickerDuration interval ≤ 0 then none
    else
      match Start L (initWorld L fs logOut stdLogOut basePath interval sizeMb format) now with
      | none => none
      | some r => some (.ok r.2)

/-! ## Events -/

/-- What can happen to an engine: calls of its methods, messages to its
    goroutine, and lines logged by the application through the logrus logger. -/
inductive Event
  | callStart (now : Time)
  | callStop
  | callSetVerbose (v : Bool)
  | callRotate (now : Time)
  | loop (m : LoopMsg) (now : Time)
  | logLine (msg : String)
deriving DecidableEq, Repr

/-- One event; `none` is a panic. -/
def step (L : Lib) (w : World) : Event → Option World
  | Event.callStart now => (Start L w now).map (fun r => r.2)
  | Event.callStop => some (Stop w)
  | Event.callSetVerbose v => some (SetVerbose w v)
  | Event.callRotate now => some (Rotate L w now).2
  | Event.loop m now => some (rotate L w m now)
  | Event.logLine msg => some (logInfo w msg)

/-- A sequence of events, stopping at a panic. -/
def run (L : Lib) (w : World) : List Event → Option World
  | [] => some w
  | e :: es =>
    match step L w e with
    | none => none
    | some w1 => run L w1 es

/-! ## Observations used in the statements -/

/-- The successive suffixes `getSuffix` returns for a list of calls, each given
    as the instant passed and the clock reading at the call. -/
def suffixSeq (L : Lib) (l : Logrotate) : List (Time × Time) → List String
  | [] => []
  | c :: cs => (l.getSuffix L c.1 c.2).1 :: suffixSeq L (l.getSuffix L c.1 c.2).2 cs

/-- The error returned by the rotation step that an iteration of the loop runs
    for message `m` (`none` for the shutdown message, which runs none). -/
def loopRotateErr (L : Lib) (w : World) (m : LoopMsg) (now : Time) : Option GoErr :=
  match m with
  | LoopMsg.appDone => none
  | LoopMsg.tick t =>
    (rotateLog L (if w.l.verbose then logInfo w "scheduled log rotation" else w) t now).1
  | LoopMsg.forceRotate t =>
    (rotateLog L (if w.l.verbose then logInfo w "forced log rotation" else w) t now).1

/-- The events that ask for a rotation: a call of `Rotate`, a timer tick, a
    message on the forced-rotation channel. -/
def Event.isTrigger : Event → Bool
  | Event.callRotate _ => true
  | Event.loop (LoopMsg.tick _) _ => true
  | Event.loop (LoopMsg.forceRotate _) _ => true
  | _ => false

/-- The events that call `Start`. -/
def Event.isStart : Event → Bool
  | Event.callStart _ => true
  | _ => false

/-- The line an event writes through the logrus logger on the application's
    behalf, as a list: one line for a logged line, none for any other event. -/
def Event.line : Event → List String
  | Event.logLine msg => [msg]
  | _ => []

/-- The lines the application logged through the logrus logger in a sequence of
    events, in order. -/
def loggedLines : List Event → List String
  | [] => []
  | e :: es => e.line ++ loggedLines es

/-- An archive path of the engine with base path `b`: `b + "." + suffix`. -/
def isArchive (b q : String) : Prop := ∃ s : String, q = b ++ "." ++ s

/-- The decimal numerals of eight that `strconv.ParseInt` accepts: zeros, then `8`. -/
def zerosEight (k : Nat) : List Char := List.replicate k '0' ++ ['8']

/-! ## Invariants -/

/-- What a rotation trigger leaves alone on an inactive engine. -/
structure SameHandles (w w1 : World) : Prop where
  l_eq : w1.l = w.l
  entries_eq : w1.fs.entries = w.fs.entries
  openFds_eq : w1.fs.openFds = w.fs.openFds
  logOut_eq : w1.logOut = w.logOut
  stdLogOut_eq : w1.stdLogOut = w.stdLogOut

/-- The link structure around the live file: `b` and the newest archive `a` are
    the only names of inode `i`, every other archive is the only name of its
    inode, and the directory holding `b` is there. -/
structure LinkInv (L : Lib) (b : String) (fs : FS) (i : Nat) (a : String) : Prop where
  base : fs.lookup b = some (Entry.file i)
  arch : fs.lookup a = some (Entry.file i)
  isArch : isArchive b a
  only : ∀ q, fs.lookup q = some (Entry.file i) → q = b ∨ q = a
  others : ∀ q j, isArchive b q → fs.lookup q = some (Entry.file j) → j ≠ i →
    ∀ q1, fs.lookup q1 = some (Entry.file j) → q1 = q
  parent : fs.lookup (L.dirOf b) = some Entry.dir

/-- The invariant of a started engine that `Start` was not called on again:
    its handle is open, refers to the inode at the base path, and the link
    structure is as `LinkInv` says. -/
def WInv (L : Lib) (w : World) : Prop :=
  ∃ fd i a, w.l.f = some ⟨fd, i⟩ ∧ fd ∈ w.fs.openFds ∧ fd < w.fs.nextFd ∧
    LinkInv L w.l.basePath w.fs i a

/-- The state of a started engine up to its first rotation: the logrus logger
    writes to the engine's handle `l.f`, which is open and refers to inode `i`,
    the inode at the base path `b`; `b` and the initial archive `a` are the only
    names of `i`; the file holds `lines`; and every other inode holds what it
    held in the file system `fs0` that `New` was called on. -/
structure FirstInv (L : Lib) (b : String) (fs0 : FS) (w : World) (fd i : Nat) (a : String)
    (lines : List String) : Prop where
  handle : w.l.f = some ⟨fd, i⟩
  output : w.logOut = Writer.file ⟨fd, i⟩
  isOpen : fd ∈ w.fs.openFds
  below : fd < w.fs.nextFd
  base : w.fs.lookup b = some (Entry.file i)
  arch : w.fs.lookup a = some (Entry.file i)
  isArch : isArchive b a
  only : ∀ q, w.fs.lookup q = some (Entry.file i) → q = b ∨ q = a
  parent : w.fs.lookup (L.dirOf b) = some Entry.dir
  content : w.fs.data i = lines
  rest : ∀ j, j ≠ i → w.fs.data j = fs0.data j

/-! ## A concrete library and file system for examples -/

/-- The part of a path before its last slash (`filepath.Dir` on clean absolute
    paths with at least two elements). -/
def dirOfSimple (p : String) : String :=
  String.mk ((p.data.reverse.dropWhile (fun c => c ≠ '/')).drop 1).reverse

/-- A library instance: `Format` on layouts that hold no element of the reference
    time returns the layout itself. -/
def exLib : Lib := { dirOf := dirOfSimple, format := fun _ layout => layout }

/-- A file system holding only the directory `/tmp`; the descriptors 0, 1 and 2 are open. -/
def exFS : FS :=
  { entries := (∅ : AList (fun _ : String => Entry)).insert "/tmp" Entry.dir
    data := fun _ => []
    nextIno := 0
    nextFd := 3
    openFds := [0, 1, 2] }

/-- The file system `exFS` with one more entry (inode numbers below 8 are taken). -/
def exFSWith (p : String) (e : Entry) : FS :=
  { exFS with entries := exFS.entries.insert p e, nextIno := 8 }

/-- The world a call `New(log, basePath, 5, 0, format)` returns with a nil error;
    `none` when it panics or returns an error. -/
def newWorld (L : Lib) (fs : FS) (basePath : String) (format : String) : Option World :=
  match New L fs Writer.other Writer.other 5 basePath 5 0 format with
  | some (.ok w) => some w
  | _ => none

/-- The world after `New(log, "/tmp/x.log", 5, 0, format)` on `fs`, or right
    before its call of `Start` if it did not return an engine. -/
def exWorld (fs : FS) (format : String) : World :=
  match newWorld exLib fs "/tmp/x.log" format with
  | some w => w
  | none => initWorld exLib fs Writer.other Writer.other "/tmp/x.log" 5 0 format

/-- The world after a sequence of events on an example world (the world itself on a panic). -/
def exRun (w : World) (evs : List Event) : World :=
  match run exLib w evs with
  | some w1 => w1
  | none => w

/-- The engine of `New(log, "/tmp/x.log", 5, 0, "8")` on `exFS`. -/
def exW8 : World := exWorld exFS "8"

/-- The engine `exW8` after two lines were logged and `Rotate()` was called. -/
def exW8Rotated : World :=
  exRun exW8 [Event.logLine "line 1", Event.logLine "line 2", Event.callRotate 7]

/-- The engine of `New(log, "/tmp/x.log", 5, 0, "8")` where `/tmp/x.log.1` is a directory. -/
def exW8Dir : World := exWorld (exFSWith "/tmp/x.log.1" Entry.dir) "8"

/-- The world right before `New(log, "/tmp/x.log", 5, 0, "8")` calls `Start`, on a
    file system where an archive `/tmp/x.log.0` is left over. -/
def exInitStale : World :=
  initWorld exLib (exFSWith "/tmp/x.log.0" (Entry.file 7)) Writer.other Writer.other
    "/tmp/x.log" 5 0 "8"

/-- The engine of `New(log, "/tmp/x.log", 5, 0, "8")` on `exFS` after the
    application logged two lines. -/
def exW8Logged : World := exRun exW8 [Event.logLine "line 1", Event.logLine "line 2"]

/-! ## Basic facts about the operations -/

theorem rotateLog_inactive (L : Lib) (w : World) (t now : Time) (h : w.l.active = false) :
    rotateLog L w t now = (none, w) := by
  simp [rotateLog, h]

theorem logInfo_l (w : World) (msg : String) : (logInfo w msg).l = w.l := by
  unfold logInfo; split <;> rfl

theorem logInfo_entries (w : World) (msg : String) :
    (logInfo w msg).fs.entries = w.fs.entries := by
  unfold logInfo writeFile; split
  · rfl
  · dsimp only; split <;> rfl

theorem logInfo_openFds (w : World) (msg : String) :
    (logInfo w msg).fs.openFds = w.fs.openFds := by
  unfold logInfo writeFile; split
  · rfl
  · dsimp only; split <;> rfl

theorem logInfo_logOut (w : World) (msg : String) : (logInfo w msg).logOut = w.logOut := by
  unfold logInfo; split <;> rfl

theorem logInfo_stdLogOut (w : World) (msg : String) :
    (logInfo w msg).stdLogOut = w.stdLogOut := by
  unfold logInfo; split <;> rfl

theorem logInfo_loopAlive (w : World) (msg : String) :
    (logInfo w msg).loopAlive = w.loopAlive := by
  unfold logInfo; split <;> rfl

theorem sameHandles_refl (w : World) : SameHandles w w := ⟨rfl, rfl, rfl, rfl, rfl⟩

theorem sameHandles_trans {a b c : World} (h1 : SameHandles a b) (h2 : SameHandles b c) :
    SameHandles a c :=
  ⟨h2.l_eq.trans h1.l_eq, h2.entries_eq.trans h1.entries_eq, h2.openFds_eq.trans h1.openFds_eq,
   h2.logOut_eq.trans h1.logOut_eq, h2.stdLogOut_eq.trans h1.stdLogOut_eq⟩

theorem sameHandles_logInfo (w : World) (msg : String) : SameHandles w (logInfo w msg) :=
  ⟨logInfo_l w msg, logInfo_entries w msg, logInfo_openFds w msg, logInfo_logOut w msg,
   logInfo_stdLogOut w msg⟩

theorem sameHandles_verbose (w : World) (msg : String) :
    SameHandles w (if w.l.verbose then logInfo w msg else w) := by
  split
  · exact sameHandles_logInfo w msg
  · exact sameHandles_refl w

theorem Rotate_inactive (L : Lib) (w : World) (now : Time) (h : w.l.active = false) :
    (Rotate L w now).1 = none ∧ SameHandles w (Rotate L w now).2 := by
  have hv := sameHandles_verbose w "forced log rotation"
  have ha : (if w.l.verbose then logInfo w "forced log rotation" else w).l.active = false := by
    rw [hv.l_eq]; exact h
  unfold Rotate
  simp only [rotateLog_inactive L _ _ _ ha]
  exact ⟨trivial, hv⟩

theorem rotate_skips_inactive (L : Lib) (w : World) (m : LoopMsg) (now : Time)
    (h : w.l.active = false) (hm : m ≠ LoopMsg.appDone) :
    SameHandles w (rotate L w m now) := by
  unfold rotate
  split
  · exact sameHandles_refl w
  · cases m with
    | appDone => exact absurd rfl hm
    | tick t =>
      have hv := sameHandles_verbose w "scheduled log rotation"
      have ha : (if w.l.verbose then logInfo w "scheduled log rotation" else w).l.active
          = false := by rw [hv.l_eq]; exact h
      simp only [rotateLog_inactive L _ _ _ ha]
      exact hv
    | forceRotate t =>
      have hv := sameHandles_verbose w "forced log rotation"
      have ha : (if w.l.verbose then logInfo w "forced log rotation" else w).l.active
          = false := by rw [hv.l_eq]; exact h
      simp only [rotateLog_inactive L _ _ _ ha]
      exact hv

theorem step_trigger_inactive (L : Lib) (w : World) (e : Event) (h : w.l.active = false)
    (he : e.isTrigger = true) : ∃ w1, step L w e = some w1 ∧ SameHandles w w1 := by
  cases e with
  | callStart now => simp [Event.isTrigger] at he
  | callStop => simp [Event.isTrigger] at he
  | callSetVerbose v => simp [Event.isTrigger] at he
  | logLine msg => simp [Event.isTrigger] at he
  | callRotate now => exact ⟨_, rfl, (Rotate_inactive L w now h).2⟩
  | loop m now =>
    refine ⟨_, rfl, rotate_skips_inactive L w m now h ?_⟩
    intro hm; subst hm; simp [Event.isTrigger] at he

theorem run_triggers_inactive (L : Lib) (evs : List Event) :
    ∀ w : World, w.l.active = false → (∀ e ∈ evs, e.isTrigger = true) →
      ∃ w1, run L w evs = some w1 ∧ SameHandles w w1 := by
  induction evs with
  | nil => intro w _ _; exact ⟨w, rfl, sameHandles_refl w⟩
  | cons e es ih =>
    intro w h htr
    obtain ⟨w1, hs, h1⟩ := step_trigger_inactive L w e h (htr e (List.mem_cons_self _ _))
    have ha1 : w1.l.active = false := by rw [h1.l_eq]; exact h
    obtain ⟨w2, hr, h2⟩ := ih w1 ha1 (fun x hx => htr x (List.mem_cons_of_mem _ hx))
    refine ⟨w2, ?_, sameHandles_trans h1 h2⟩
    simp [run, hs, hr]

/-! ## Facts about `strconv.ParseInt` -/

theorem char_eq_of_toNat {c d : Char} (h : c.toNat = d.toNat) : c = d := by
  apply Char.ext
  apply UInt32.ext
  simpa [Char.toNat] using h

theorem digitOf_lt_ten {c : Char} {d : Nat} (h : digitOf c = some d) (hd : d < 10) :
    48 ≤ c.toNat ∧ c.toNat ≤ 57 ∧ d = c.toNat - 48 := by
  unfold digitOf at h
  split at h
  · simp at h; omega
  · split at h
    · simp at h; omega
    · split at h
      · simp at h; omega
      · simp at h

theorem parseUintLoop_ge : ∀ (cs : List Char) (n m : Nat),
    parseUintLoop n cs = .ok m → n ≤ m ∧ (cs ≠ [] → n * 10 ≤ m) := by
  intro cs
  induction cs with
  | nil => intro n m h; simp [parseUintLoop] at h; subst h; simp
  | cons c rest ih =>
    intro n m h
    unfold parseUintLoop at h
    split at h
    · simp at h
    · rename_i d hd
      split at h
      · simp at h
      · split at h
        · simp at h
        · dsimp only at h
          split at h
          · simp at h
          · have := (ih _ _ h).1
            have h10 : n * 10 % 18446744073709551616 = n * 10 :=
              Nat.mod_eq_of_lt (by omega)
            rw [h10] at this
            rename_i hc
            rw [h10] at hc
            constructor
            · omega
            · intro _; omega

theorem parseUintLoop_pos_eight {cs : List Char} {n : Nat} (hn : 1 ≤ n)
    (h : parseUintLoop n cs = .ok 8) : cs = [] ∧ n = 8 := by
  cases cs with
  | nil => simp [parseUintLoop] at h; exact ⟨rfl, h⟩
  | cons c rest =>
    have := (parseUintLoop_ge _ _ _ h).2 (by simp)
    omega

theorem parseUintLoop_zero_step (cs : List Char) :
    parseUintLoop 0 ('0' :: cs) = parseUintLoop 0 cs := rfl

theorem parseUintLoop_zeros_eight (k : Nat) :
    parseUintLoop 0 (List.replicate k '0' ++ ['8']) = .ok 8 := by
  induction k with
  | zero => rfl
  | succ k ih =>
    rw [List.replicate_succ, List.cons_append, parseUintLoop_zero_step]
    exact ih

theorem parseUintLoop_zero_eight (cs : List Char) :
    parseUintLoop 0 cs = .ok 8 ↔ ∃ k, cs = List.replicate k '0' ++ ['8'] := by
  constructor
  · induction cs with
    | nil => intro h; simp [parseUintLoop] at h
    | cons c rest ih =>
      intro h
      unfold parseUintLoop at h
      split at h
      · simp at h
      · rename_i d hd
        split at h
        · simp at h
        · rename_i hlt
          obtain ⟨h1, h2, h3⟩ := digitOf_lt_ten hd (by omega)
          split at h
          · simp at h
          · dsimp only at h
            split at h
            · simp at h
            · have hd' : (0 * 10 % 18446744073709551616 + d) % 18446744073709551616 = d := by
                omega
              rw [hd'] at h
              by_cases hz : d = 0
              · subst hz
                have hc : c = '0' := char_eq_of_toNat (by
                  show c.toNat = 48
                  omega)
                obtain ⟨k, hk⟩ := ih h
                refine ⟨k + 1, ?_⟩
                rw [hc, hk, List.replicate_succ, List.cons_append]
              · obtain ⟨hr, h8⟩ := parseUintLoop_pos_eight (by omega) h
                have hc : c = '8' := char_eq_of_toNat (by
                  show c.toNat = 56
                  omega)
                exact ⟨0, by rw [hc, hr]; rfl⟩
  · rintro ⟨k, rfl⟩
    exact parseUintLoop_zeros_eight k

theorem zerosEight_ne_nil (k : Nat) : zerosEight k ≠ [] := by
  simp [zerosEight]

theorem zerosEight_head (k : Nat) (c : Char) (cs : List Char) (h : zerosEight k = c :: cs) :
    c = '0' ∨ c = '8' := by
  cases k with
  | zero => simp [zerosEight] at h; exact Or.inr h.1.symm
  | succ k =>
    simp [zerosEight, List.replicate_succ] at h
    exact Or.inl h.1.symm

theorem parseUint_eight (s : List Char) :
    parseUint s = .ok 8 ↔ ∃ k, s = zerosEight k := by
  cases s with
  | nil =>
    simp only [parseUint]
    constructor
    · intro h; simp at h
    · rintro ⟨k, hk⟩; exact absurd hk.symm (zerosEight_ne_nil k)
  | cons c cs =>
    simp only [parseUint]
    exact parseUintLoop_zero_eight (c :: cs)

theorem parseInt_eight (s : List Char) :
    parseInt s = .ok 8 ↔ ∃ k, s = zerosEight k ∨ s = '+' :: zerosEight k := by
  cases s with
  | nil =>
    constructor
    · intro h; simp [parseInt] at h
    · rintro ⟨k, hk | hk⟩
      · exact absurd hk.symm (zerosEight_ne_nil k)
      · simp at hk
  | cons c cs =>
    unfold parseInt
    dsimp only
    by_cases hp : c = '+'
    · subst hp
      simp only [true_or, if_true]
      have hneg : ¬ ('+' = '-') := by decide
      constructor
      · intro h
        split at h
        · simp at h
        · rename_i un hun
          simp only [hneg, false_and, if_false, not_false_eq_true, true_and] at h
          split at h
          · simp at h
          · simp at h
            have : un = 8 := by exact_mod_cast h
            subst this
            obtain ⟨k, hk⟩ := (parseUint_eight cs).1 hun
            exact ⟨k, Or.inr (by rw [hk])⟩
      · rintro ⟨k, hk | hk⟩
        · rcases zerosEight_head k _ _ hk.symm with h | h <;> simp at h
        · have hcs : cs = zerosEight k := by simpa using hk
          have := (parseUint_eight cs).2 ⟨k, hcs⟩
          rw [this]
          simp
    · by_cases hm : c = '-'
      · subst hm
        simp only [or_true, if_true]
        constructor
        · intro h
          split at h
          · simp at h
          · rename_i un hun
            simp only [not_true_eq_false, false_and, if_false, true_and] at h
            split at h
            · simp at h
            · simp at h
              omega
        · rintro ⟨k, hk | hk⟩
          · rcases zerosEight_head k _ _ hk.symm with h | h <;> simp at h
          · simp at hk
      · simp only [hp, hm, or_self, if_false]
        constructor
        · intro h
          split at h
          · simp at h
          · rename_i un hun
            simp only [not_false_eq_true, true_and, false_and, if_false] at h
            split at h
            · simp at h
            · simp at h
              have : un = 8 := by exact_mod_cast h
              subst this
              obtain ⟨k, hk⟩ := (parseUint_eight (c :: cs)).1 hun
              exact ⟨k, Or.inl hk⟩
        · rintro ⟨k, hk | hk⟩
          · have := (parseUint_eight (c :: cs)).2 ⟨k, hk⟩
            rw [this]
            simp
          · simp at hk
            exact absurd hk.1 hp

theorem useIncrementOf_iff (format : String) :
    useIncrementOf format = true ↔
      ∃ k, format.data = zerosEight k ∨ format.data = '+' :: zerosEight k := by
  rw [← parseInt_eight]
  unfold useIncrementOf
  split
  · rename_i v hv
    rw [hv]
    simp [parsedIncrementFormat]
  · rename_i e he
    rw [he]
    simp
/-! ## Facts about the file system -/

theorem lookup_insert_eq (m : AList (fun _ : String => Entry)) (p q : String) (e : Entry) :
    (m.insert p e).lookup q = if q = p then some e else m.lookup q := by
  by_cases h : q = p
  · subst h; simp
  · simp [h, AList.lookup_insert_ne h]

theorem lookup_erase_eq (m : AList (fun _ : String => Entry)) (p q : String) :
    (m.erase p).lookup q = if q = p then none else m.lookup q := by
  by_cases h : q = p
  · subst h; simp
  · simp [h, AList.lookup_erase_ne h]

theorem mem_links_iff (fs : FS) (i : Nat) (q : String) :
    q ∈ fs.links i ↔ fs.lookup q = some (Entry.file i) := by
  unfold FS.links FS.lookup
  rw [List.mem_filter]
  constructor
  · intro h; simpa using h.2
  · intro h
    refine ⟨?_, by simpa using h⟩
    rw [← AList.mem_keys, ← AList.lookup_isSome, h]
    rfl

theorem links_nodup (fs : FS) (i : Nat) : (fs.links i).Nodup :=
  List.Nodup.filter _ fs.entries.keys_nodup

/-- The link count of an inode whose names are exactly the members of a list without repeats. -/
theorem nlink_eq_length (fs : FS) (i : Nat) (l : List String) (hl : l.Nodup)
    (h : ∀ q, fs.lookup q = some (Entry.file i) ↔ q ∈ l) : fs.nlink i = l.length := by
  unfold FS.nlink
  apply List.Perm.length_eq
  rw [List.perm_ext_iff_of_nodup (links_nodup fs i) hl]
  intro q
  rw [mem_links_iff, h]

theorem nlink_one_unique (fs : FS) (i : Nat) (h : fs.nlink i = 1) (p q : String)
    (hp : fs.lookup p = some (Entry.file i)) (hq : fs.lookup q = some (Entry.file i)) :
    q = p := by
  unfold FS.nlink at h
  obtain ⟨a, ha⟩ := List.length_eq_one.1 h
  have h1 := (mem_links_iff fs i p).2 hp
  have h2 := (mem_links_iff fs i q).2 hq
  rw [ha] at h1 h2
  simp at h1 h2
  rw [h1, h2]

theorem foldr_ino_lt (l : List (Sigma (fun _ : String => Entry))) (n : Nat) (p : String)
    (i : Nat) (h : (⟨p, Entry.file i⟩ : Sigma (fun _ : String => Entry)) ∈ l) :
    i < l.foldr (fun e m => match e.2 with
      | Entry.file i => if m ≤ i then i + 1 else m
      | Entry.dir => m) n := by
  induction l with
  | nil => simp at h
  | cons e es ih =>
    rw [List.foldr_cons]
    rcases List.mem_cons.1 h with h1 | h1
    · subst h1
      simp only
      split
      · exact Nat.lt_succ_self i
      · rename_i hle
        exact Nat.lt_of_not_le hle
    · have := ih h1
      split
      · split
        · rename_i hle
          exact Nat.lt_succ_of_le (Nat.le_trans (Nat.le_of_lt this) hle)
        · exact this
      · exact this

/-- No path names the inode number that `freshIno` hands out. -/
theorem lookup_lt_freshIno (fs : FS) (p : String) (i : Nat)
    (h : fs.lookup p = some (Entry.file i)) : i < fs.freshIno := by
  unfold FS.freshIno
  apply foldr_ino_lt _ _ p
  exact AList.mem_lookup_iff.1 h

theorem lookup_ne_freshIno (fs : FS) (p : String) :
    fs.lookup p ≠ some (Entry.file fs.freshIno) := by
  intro h
  exact Nat.lt_irrefl _ (lookup_lt_freshIno fs p _ h)

theorem archive_ne_base (b q : String) (h : isArchive b q) : q ≠ b := by
  obtain ⟨s, rfl⟩ := h
  intro he
  have h1 := congrArg String.length he
  have h2 : ".".length = 1 := rfl
  rw [String.length_append, String.length_append, h2] at h1
  omega

theorem closeFile_entries (fs : FS) (f : Option File) : (closeFile fs f).1.entries = fs.entries := by
  unfold closeFile
  split
  · rfl
  · split <;> rfl

theorem closeFile_data (fs : FS) (f : Option File) : (closeFile fs f).1.data = fs.data := by
  unfold closeFile
  split
  · rfl
  · split <;> rfl

theorem closeFile_nextFd (fs : FS) (f : Option File) : (closeFile fs f).1.nextFd = fs.nextFd := by
  unfold closeFile
  split
  · rfl
  · split <;> rfl

theorem closeFile_lookup (fs : FS) (f : Option File) (q : String) :
    (closeFile fs f).1.lookup q = fs.lookup q := by
  unfold FS.lookup
  rw [closeFile_entries]

/-- Closing a handle leaves every other descriptor open. -/
theorem closeFile_keeps_open (fs : FS) (f : Option File) (d : Nat) (hd : d ∈ fs.openFds)
    (hne : ∀ g, f = some g → g.fd ≠ d) : d ∈ (closeFile fs f).1.openFds := by
  unfold closeFile
  split
  · exact hd
  · rename_i g
    split
    · simp only [List.mem_filter]
      refine ⟨hd, ?_⟩
      have := hne g rfl
      simpa using fun h => this h.symm
    · exact hd

theorem remove_file (L : Lib) (fs : FS) (b : String) (i : Nat)
    (h : fs.lookup b = some (Entry.file i)) :
    remove L fs b = ({ fs with entries := fs.entries.erase b }, none) := by
  simp [remove, h]

theorem remove_absent (L : Lib) (fs : FS) (b : String) (h : fs.lookup b = none) :
    remove L fs b = (fs, some Errno.ENOENT) := by
  simp [remove, h]

theorem link_ok (L : Lib) (fs : FS) (o n : String) (i : Nat)
    (ho : fs.lookup o = some (Entry.file i)) (hn : fs.lookup n = none)
    (hd : fs.lookup (L.dirOf n) = some Entry.dir) :
    link L fs o n = ({ fs with entries := fs.entries.insert n (Entry.file i) }, none) := by
  simp [link, ho, hn, hd]

/-- If `link` reports no error, the new name was free, its directory is there,
    and the old name is a file. -/
theorem link_ok_inv (L : Lib) (fs : FS) (o n : String) (h : (link L fs o n).2 = none) :
    ∃ i, fs.lookup o = some (Entry.file i) ∧ fs.lookup n = none ∧
      fs.lookup (L.dirOf n) = some Entry.dir := by
  unfold link at h
  split at h
  · simp at h
  · simp at h
  · rename_i i ho
    split at h
    · simp at h
    · rename_i hn
      split at h
      · rename_i hd
        exact ⟨i, ho, hn, hd⟩
      · simp at h
      · simp at h

/-- What a successful `os.OpenFile` with `O_CREATE` does: the path names the
    inode of the handle afterwards, which is the inode it named before or a
    fresh one, and no other path changes. -/
theorem openFile_ok (L : Lib) (fs fs1 : FS) (p : String) (trunc : Bool) (nf : File)
    (h : openFile L fs p true trunc = .ok (fs1, nf)) :
    nf.fd = fs.nextFd ∧ fs1.nextFd = fs.nextFd + 1 ∧ fs1.openFds = fs.nextFd :: fs.openFds ∧
    (∀ q, fs1.lookup q = if q = p then some (Entry.file nf.ino) else fs.lookup q) ∧
    ((fs.lookup p = some (Entry.file nf.ino) ∧
        fs1.data = if trunc then Function.update fs.data nf.ino [] else fs.data) ∨
     (fs.lookup p = none ∧ (∀ q, fs.lookup q ≠ some (Entry.file nf.ino)) ∧
        fs1.data = Function.update fs.data nf.ino [])) := by
  unfold openFile at h
  split at h
  · simp at h
  · rename_i i hi
    simp only [Except.ok.injEq, Prod.mk.injEq] at h
    obtain ⟨h1, h2⟩ := h
    subst h1 h2
    refine ⟨rfl, rfl, rfl, ?_, Or.inl ⟨hi, rfl⟩⟩
    intro q
    by_cases hq : q = p
    · subst hq; simpa [FS.lookup] using hi
    · simp [hq, FS.lookup]
  · rename_i hn
    simp only [if_true] at h
    split at h
    · simp only [Except.ok.injEq, Prod.mk.injEq] at h
      obtain ⟨h1, h2⟩ := h
      subst h1 h2
      refine ⟨rfl, rfl, rfl, ?_, Or.inr ⟨hn, fun q => lookup_ne_freshIno fs q, rfl⟩⟩
      intro q
      simp only [FS.lookup]
      exact lookup_insert_eq _ _ _ _
    · simp at h
    · simp at h

/-- The tail of a rotation step, after the new file is open: `basePath` is
    unlinked and linked again to the inode of the new archive. -/
theorem relink_lookup (L : Lib) (fs1 : FS) (fo : Option File) (b p : String) (i j : Nat)
    (hb : fs1.lookup b = some (Entry.file i)) (hp : fs1.lookup p = some (Entry.file j))
    (hpb : p ≠ b) (hpar : fs1.lookup (L.dirOf b) = some Entry.dir) :
    (∀ q, (link L (remove L (closeFile fs1 fo).1 b).1 p b).1.lookup q =
        if q = b then some (Entry.file j) else fs1.lookup q) ∧
    (link L (remove L (closeFile fs1 fo).1 b).1 p b).1.data = fs1.data ∧
    (link L (remove L (closeFile fs1 fo).1 b).1 p b).1.nextFd = fs1.nextFd ∧
    (link L (remove L (closeFile fs1 fo).1 b).1 p b).1.openFds = (closeFile fs1 fo).1.openFds := by
  have hdb : L.dirOf b ≠ b := by
    intro he; rw [he, hb] at hpar; simp at hpar
  have hb2 : (closeFile fs1 fo).1.lookup b = some (Entry.file i) := by
    rw [closeFile_lookup]; exact hb
  rw [remove_file L _ b i hb2]
  have hl : ∀ q, ({ (closeFile fs1 fo).1 with
      entries := (closeFile fs1 fo).1.entries.erase b } : FS).lookup q =
      if q = b then none else fs1.lookup q := by
    intro q
    simp only [FS.lookup]
    rw [lookup_erase_eq, closeFile_entries]
  rw [link_ok L _ p b j (by rw [hl, if_neg hpb]; exact hp) (by rw [hl, if_pos rfl])
    (by rw [hl, if_neg hdb]; exact hpar)]
  refine ⟨?_, closeFile_data fs1 fo, closeFile_nextFd fs1 fo, rfl⟩
  intro q
  simp only [FS.lookup]
  rw [lookup_insert_eq, lookup_erase_eq, closeFile_entries]
  by_cases hq : q = b
  · simp [hq]
  · simp [hq]
/-! ## The rotation step -/

theorem getSuffix_basePath (L : Lib) (l : Logrotate) (t now : Time) :
    (l.getSuffix L t now).2.basePath = l.basePath := by
  unfold Logrotate.getSuffix; dsimp only; split <;> rfl

theorem getSuffix_f (L : Lib) (l : Logrotate) (t now : Time) :
    (l.getSuffix L t now).2.f = l.f := by
  unfold Logrotate.getSuffix; dsimp only; split <;> rfl

theorem getSuffix_active (L : Lib) (l : Logrotate) (t now : Time) :
    (l.getSuffix L t now).2.active = l.active := by
  unfold Logrotate.getSuffix; dsimp only; split <;> rfl

theorem rotateLog_open_error (L : Lib) (w : World) (t now : Time) (e : Errno)
    (hact : w.l.active = true)
    (hopen : openFile L w.fs (w.l.basePath ++ "." ++ (w.l.getSuffix L t now).1) true true
      = .error e) :
    rotateLog L w t now =
      (some (GoErr.errorf "log rotation error, cannot create new file: " e),
       { w with l := (w.l.getSuffix L t now).2 }) := by
  simp [rotateLog, hact, hopen]

theorem rotateLog_open_ok (L : Lib) (w : World) (t now : Time) (fs1 : FS) (nf : File)
    (hact : w.l.active = true)
    (hopen : openFile L w.fs (w.l.basePath ++ "." ++ (w.l.getSuffix L t now).1) true true
      = .ok (fs1, nf)) :
    rotateLog L w t now =
      (none,
       { w with
          l := { (w.l.getSuffix L t now).2 with f := some nf }
          fs := (link L (remove L (closeFile fs1 w.l.f).1 w.l.basePath).1
                  (w.l.basePath ++ "." ++ (w.l.getSuffix L t now).1) w.l.basePath).1
          stdLogOut := Writer.file nf }) := by
  simp [rotateLog, hact, hopen]

/-- On an active engine, a rotation step returns a nil error exactly when the
    new archive file was opened. -/
theorem rotateLog_ok_opened (L : Lib) (w : World) (t now : Time) (hact : w.l.active = true)
    (hok : (rotateLog L w t now).1 = none) :
    ∃ fs1 nf, openFile L w.fs (w.l.basePath ++ "." ++ (w.l.getSuffix L t now).1) true true
      = .ok (fs1, nf) := by
  cases hopen : openFile L w.fs (w.l.basePath ++ "." ++ (w.l.getSuffix L t now).1) true true with
  | error e => rw [rotateLog_open_error L w t now e hact hopen] at hok; simp at hok
  | ok r => exact ⟨r.1, r.2, rfl⟩

/-- Every step of the rotation leaves the logrus logger's output where it was. -/
theorem rotateLog_logOut (L : Lib) (w : World) (t now : Time) :
    (rotateLog L w t now).2.logOut = w.logOut := by
  unfold rotateLog
  split
  · rfl
  · dsimp only
    split <;> rfl

/-! ## The link invariant -/

theorem linkInv_congr {L : Lib} {b : String} {fs fs1 : FS} {i : Nat} {a : String}
    (h : LinkInv L b fs i a) (hl : ∀ q, fs1.lookup q = fs.lookup q) : LinkInv L b fs1 i a where
  base := by rw [hl]; exact h.base
  arch := by rw [hl]; exact h.arch
  isArch := h.isArch
  only := fun q hq => h.only q (by rw [← hl]; exact hq)
  others := fun q j hq hj hne q1 h1 =>
    h.others q j hq (by rw [← hl]; exact hj) hne q1 (by rw [← hl]; exact h1)
  parent := by rw [hl]; exact h.parent

/-- The link structure after `basePath` and the archive `p` both name inode
    `j`, which was the inode of `p` or is new, and no other path changed. -/
theorem linkInv_rotate {L : Lib} {b : String} {fs fs1 : FS} {i : Nat} {a p : String} {j : Nat}
    (h : LinkInv L b fs i a) (hp : isArchive b p)
    (hl : ∀ q, fs1.lookup q = if q = b ∨ q = p then some (Entry.file j) else fs.lookup q)
    (hj : fs.lookup p = some (Entry.file j) ∨
      (fs.lookup p = none ∧ ∀ q, fs.lookup q ≠ some (Entry.file j))) :
    LinkInv L b fs1 j p := by
  have hab : a ≠ b := archive_ne_base b a h.isArch
  have hpb : p ≠ b := archive_ne_base b p hp
  -- a path other than `b` that names `j` afterwards is `p`
  have key : ∀ q, q ≠ b → fs.lookup q = some (Entry.file j) → q = p := by
    intro q hqb hq
    rcases hj with hj | hj
    · by_cases hji : j = i
      · subst hji
        have h1 := h.only q hq
        have h2 := h.only p hj
        rcases h1 with h1 | h1
        · exact absurd h1 hqb
        · rcases h2 with h2 | h2
          · exact absurd h2 hpb
          · rw [h1, h2]
      · exact h.others p j hp hj hji q hq
    · exact absurd hq (hj.2 q)
  -- names of an inode other than `j` are as before, and are not `b`
  have old : ∀ q j1, j1 ≠ j → fs1.lookup q = some (Entry.file j1) →
      q ≠ b ∧ fs.lookup q = some (Entry.file j1) := by
    intro q j1 hne hq
    rw [hl] at hq
    by_cases hc : q = b ∨ q = p
    · rw [if_pos hc] at hq
      simp at hq
      exact absurd hq.symm hne
    · rw [if_neg hc] at hq
      exact ⟨fun hb => hc (Or.inl hb), hq⟩
  refine ⟨?_, ?_, hp, ?_, ?_, ?_⟩
  · rw [hl, if_pos (Or.inl rfl)]
  · rw [hl, if_pos (Or.inr rfl)]
  · intro q hq
    rw [hl] at hq
    by_cases hc : q = b ∨ q = p
    · exact hc
    · rw [if_neg hc] at hq
      exact Or.inr (key q (fun hb => hc (Or.inl hb)) hq)
  · intro q j1 _ hq hne q1 hq1
    obtain ⟨hqb, hq0⟩ := old q j1 hne hq
    obtain ⟨hq1b, hq10⟩ := old q1 j1 hne hq1
    by_cases hji : j1 = i
    · subst hji
      rcases h.only q hq0 with h1 | h1
      · exact absurd h1 hqb
      · rcases h.only q1 hq10 with h2 | h2
        · exact absurd h2 hq1b
        · rw [h1, h2]
    · exact h.others q j1 (by assumption) hq0 hji q1 hq10
  · have hd := h.parent
    have hdb : L.dirOf b ≠ b := by
      intro he; rw [he, h.base] at hd; simp at hd
    have hdp : L.dirOf b ≠ p := by
      intro he
      rw [he] at hd
      rcases hj with hj | hj
      · rw [hj] at hd; simp at hd
      · rw [hj.1] at hd; simp at hd
    rw [hl, if_neg (by rintro (h1 | h1) <;> contradiction)]
    exact hd

/-- A rotation step that opens its archive file, on an engine whose handle refers
    to the file at the base path: what the world looks like afterwards. -/
theorem rotateLog_effect (L : Lib) (w : World) (t now : Time) (fd i : Nat)
    (fs1 : FS) (nf : File)
    (hf : w.l.f = some ⟨fd, i⟩) (hlt : fd < w.fs.nextFd)
    (hbase : w.fs.lookup w.l.basePath = some (Entry.file i))
    (hpar : w.fs.lookup (L.dirOf w.l.basePath) = some Entry.dir) (hact : w.l.active = true)
    (hopen : openFile L w.fs (w.l.basePath ++ "." ++ (w.l.getSuffix L t now).1) true true
      = .ok (fs1, nf)) :
    (rotateLog L w t now).1 = none ∧
    (rotateLog L w t now).2.l.f = some nf ∧
    (rotateLog L w t now).2.l.basePath = w.l.basePath ∧
    (rotateLog L w t now).2.l.active = true ∧
    nf.fd ∈ (rotateLog L w t now).2.fs.openFds ∧
    nf.fd < (rotateLog L w t now).2.fs.nextFd ∧
    (∀ q, (rotateLog L w t now).2.fs.lookup q =
      if q = w.l.basePath ∨ q = w.l.basePath ++ "." ++ (w.l.getSuffix L t now).1
      then some (Entry.file nf.ino) else w.fs.lookup q) ∧
    (w.fs.lookup (w.l.basePath ++ "." ++ (w.l.getSuffix L t now).1) = some (Entry.file nf.ino) ∨
      (w.fs.lookup (w.l.basePath ++ "." ++ (w.l.getSuffix L t now).1) = none ∧
        ∀ q, w.fs.lookup q ≠ some (Entry.file nf.ino))) ∧
    (rotateLog L w t now).2.fs.data = Function.update w.fs.data nf.ino [] := by
  have hp : isArchive w.l.basePath (w.l.basePath ++ "." ++ (w.l.getSuffix L t now).1) := ⟨_, rfl⟩
  have hpb := archive_ne_base _ _ hp
  obtain ⟨o1, o2, o3, o4, o5⟩ := openFile_ok L w.fs fs1 _ true nf hopen
  have hj : w.fs.lookup (w.l.basePath ++ "." ++ (w.l.getSuffix L t now).1)
        = some (Entry.file nf.ino) ∨
      (w.fs.lookup (w.l.basePath ++ "." ++ (w.l.getSuffix L t now).1) = none ∧
        ∀ q, w.fs.lookup q ≠ some (Entry.file nf.ino)) := by
    rcases o5 with h | h
    · exact Or.inl h.1
    · exact Or.inr ⟨h.1, h.2.1⟩
  have hdata : fs1.data = Function.update w.fs.data nf.ino [] := by
    rcases o5 with h | h
    · simpa using h.2
    · exact h.2.2
  have hb1 : fs1.lookup w.l.basePath = some (Entry.file i) := by
    rw [o4, if_neg (Ne.symm hpb)]; exact hbase
  have hp1 : fs1.lookup (w.l.basePath ++ "." ++ (w.l.getSuffix L t now).1)
      = some (Entry.file nf.ino) := by rw [o4, if_pos rfl]
  have hdp : L.dirOf w.l.basePath ≠ w.l.basePath ++ "." ++ (w.l.getSuffix L t now).1 := by
    intro he
    have hd := hpar
    rw [he] at hd
    rcases hj with hj | hj
    · rw [hj] at hd; simp at hd
    · rw [hj.1] at hd; simp at hd
  have hpar1 : fs1.lookup (L.dirOf w.l.basePath) = some Entry.dir := by
    rw [o4, if_neg hdp]; exact hpar
  obtain ⟨r1, r2, r3, r4⟩ := relink_lookup L fs1 w.l.f w.l.basePath _ i nf.ino hb1 hp1 hpb hpar1
  rw [rotateLog_open_ok L w t now fs1 nf hact hopen]
  refine ⟨rfl, rfl, getSuffix_basePath L w.l t now, ?_, ?_, ?_, ?_, hj, ?_⟩
  · show (w.l.getSuffix L t now).2.active = true
    rw [getSuffix_active]; exact hact
  · show nf.fd ∈ (link L _ _ _).1.openFds
    rw [r4]
    apply closeFile_keeps_open
    · rw [o3, o1]; exact List.mem_cons_self _ _
    · intro g hg
      rw [hf] at hg
      simp only [Option.some.injEq] at hg
      rw [← hg, o1]
      exact Nat.ne_of_lt hlt
  · show nf.fd < (link L _ _ _).1.nextFd
    rw [r3, o2, o1]; exact Nat.lt_succ_self _
  · intro q
    show (link L _ _ _).1.lookup q = _
    rw [r1, o4]
    by_cases h1 : q = w.l.basePath
    · simp [h1]
    · simp [h1]
  · show (link L _ _ _).1.data = _
    rw [r2, hdata]

/-- The same, from the link invariant. -/
theorem rotateLog_spec (L : Lib) (w : World) (t now : Time) (fd i : Nat) (a : String)
    (fs1 : FS) (nf : File)
    (hf : w.l.f = some ⟨fd, i⟩) (hlt : fd < w.fs.nextFd)
    (hinv : LinkInv L w.l.basePath w.fs i a) (hact : w.l.active = true)
    (hopen : openFile L w.fs (w.l.basePath ++ "." ++ (w.l.getSuffix L t now).1) true true
      = .ok (fs1, nf)) :
    (rotateLog L w t now).1 = none ∧
    (rotateLog L w t now).2.l.f = some nf ∧
    (rotateLog L w t now).2.l.basePath = w.l.basePath ∧
    (rotateLog L w t now).2.l.active = true ∧
    nf.fd ∈ (rotateLog L w t now).2.fs.openFds ∧
    nf.fd < (rotateLog L w t now).2.fs.nextFd ∧
    (∀ q, (rotateLog L w t now).2.fs.lookup q =
      if q = w.l.basePath ∨ q = w.l.basePath ++ "." ++ (w.l.getSuffix L t now).1
      then some (Entry.file nf.ino) else w.fs.lookup q) ∧
    (w.fs.lookup (w.l.basePath ++ "." ++ (w.l.getSuffix L t now).1) = some (Entry.file nf.ino) ∨
      (w.fs.lookup (w.l.basePath ++ "." ++ (w.l.getSuffix L t now).1) = none ∧
        ∀ q, w.fs.lookup q ≠ some (Entry.file nf.ino))) ∧
    (rotateLog L w t now).2.fs.data = Function.update w.fs.data nf.ino [] :=
  rotateLog_effect L w t now fd i fs1 nf hf hlt hinv.base hinv.parent hact hopen

/-- The three things an iteration of the loop can do: nothing, leave the loop,
    or run a rotation step (after an optional announcement) and stay or leave. -/
theorem rotate_cases (L : Lib) (w : World) (m : LoopMsg) (now : Time) :
    rotate L w m now = w ∨ rotate L w m now = { w with loopAlive := false } ∨
    ∃ t msg b, rotate L w m now =
      { (rotateLog L (if w.l.verbose then logInfo w msg else w) t now).2 with loopAlive := b } := by
  unfold rotate
  by_cases hal : w.loopAlive = true
  · simp only [hal, not_true_eq_false, if_false]
    cases m with
    | appDone => exact Or.inr (Or.inl rfl)
    | tick t =>
      refine Or.inr (Or.inr ⟨t, "scheduled log rotation", ?_⟩)
      dsimp only
      by_cases hs : (rotateLog L (if w.l.verbose then logInfo w "scheduled log rotation" else w)
          t now).1.isSome = true
      · exact ⟨false, by rw [if_pos hs]⟩
      · exact ⟨_, by rw [if_neg hs]⟩
    | forceRotate t =>
      refine Or.inr (Or.inr ⟨t, "forced log rotation", ?_⟩)
      dsimp only
      by_cases hs : (rotateLog L (if w.l.verbose then logInfo w "forced log rotation" else w)
          t now).1.isSome = true
      · exact ⟨false, by rw [if_pos hs]⟩
      · exact ⟨_, by rw [if_neg hs]⟩
  · simp only [hal, not_false_eq_true, if_true]
    exact Or.inl rfl

theorem wInv_rotateLog {L : Lib} {w : World} (h : WInv L w) (t now : Time) :
    WInv L (rotateLog L w t now).2 := by
  by_cases hact : w.l.active = true
  · cases hopen : openFile L w.fs (w.l.basePath ++ "." ++ (w.l.getSuffix L t now).1) true true with
    | error e =>
      rw [rotateLog_open_error L w t now e hact hopen]
      obtain ⟨fd, i, a, hf, hfd, hlt, hinv⟩ := h
      refine ⟨fd, i, a, ?_, hfd, hlt, ?_⟩
      · show (w.l.getSuffix L t now).2.f = _
        rw [getSuffix_f]; exact hf
      · show LinkInv L (w.l.getSuffix L t now).2.basePath w.fs i a
        rw [getSuffix_basePath]; exact hinv
    | ok r =>
      obtain ⟨fs1, nf⟩ := r
      obtain ⟨fd, i, a, hf, hfd, hlt, hinv⟩ := h
      obtain ⟨_, s2, s3, _, s5, s6, s7, s8, _⟩ :=
        rotateLog_spec L w t now fd i a fs1 nf hf hlt hinv hact hopen
      refine ⟨nf.fd, nf.ino, w.l.basePath ++ "." ++ (w.l.getSuffix L t now).1, s2, s5, s6, ?_⟩
      rw [s3]
      exact linkInv_rotate hinv ⟨_, rfl⟩ s7 s8
  · have hf : w.l.active = false := by simpa using hact
    rw [rotateLog_inactive L w t now hf]
    exact h

theorem wInv_logInfo {L : Lib} {w : World} (h : WInv L w) (msg : String) :
    WInv L (logInfo w msg) := by
  obtain ⟨fd, i, a, hf, hfd, hlt, hinv⟩ := h
  have hn : (logInfo w msg).fs.nextFd = w.fs.nextFd := by
    unfold logInfo writeFile; split
    · rfl
    · dsimp only; split <;> rfl
  refine ⟨fd, i, a, ?_, ?_, ?_, ?_⟩
  · rw [logInfo_l]; exact hf
  · rw [logInfo_openFds]; exact hfd
  · rw [hn]; exact hlt
  · rw [logInfo_l]
    exact linkInv_congr hinv (fun q => by unfold FS.lookup; rw [logInfo_entries])

theorem wInv_verbose {L : Lib} {w : World} (h : WInv L w) (msg : String) :
    WInv L (if w.l.verbose then logInfo w msg else w) := by
  split
  · exact wInv_logInfo h msg
  · exact h

theorem wInv_loopAlive {L : Lib} {w : World} (h : WInv L w) (b : Bool) :
    WInv L { w with loopAlive := b } := h

theorem wInv_step {L : Lib} {w w1 : World} (h : WInv L w) (e : Event)
    (he : e.isStart = false) (hs : step L w e = some w1) : WInv L w1 := by
  cases e with
  | callStart now => simp [Event.isStart] at he
  | callStop => simp only [step, Option.some.injEq] at hs; subst hs; exact h
  | callSetVerbose v => simp only [step, Option.some.injEq] at hs; subst hs; exact h
  | logLine msg =>
    simp only [step, Option.some.injEq] at hs; subst hs; exact wInv_logInfo h msg
  | callRotate now =>
    simp only [step, Option.some.injEq] at hs; subst hs
    exact wInv_rotateLog (wInv_verbose h _) _ _
  | loop m now =>
    simp only [step, Option.some.injEq] at hs; subst hs
    rcases rotate_cases L w m now with hc | hc | ⟨t, msg, b, hc⟩
    · rw [hc]; exact h
    · rw [hc]; exact h
    · rw [hc]; exact wInv_loopAlive (wInv_rotateLog (wInv_verbose h msg) t now) b

theorem wInv_run {L : Lib} (evs : List Event) :
    ∀ {w w1 : World}, WInv L w → (∀ e ∈ evs, e.isStart = false) → run L w evs = some w1 →
      WInv L w1 := by
  induction evs with
  | nil =>
    intro w w1 h _ hr
    simp only [run, Option.some.injEq] at hr
    subst hr; exact h
  | cons e es ih =>
    intro w w1 h hns hr
    unfold run at hr
    split at hr
    · simp at hr
    · rename_i w2 hs
      exact ih (wInv_step h e (hns e (List.mem_cons_self _ _)) hs)
        (fun x hx => hns x (List.mem_cons_of_mem _ hx)) hr

theorem rotateLog_basePath (L : Lib) (w : World) (t now : Time) :
    (rotateLog L w t now).2.l.basePath = w.l.basePath := by
  unfold rotateLog
  split
  · rfl
  · dsimp only
    split
    · exact getSuffix_basePath L w.l t now
    · exact getSuffix_basePath L w.l t now

theorem verbose_basePath (w : World) (msg : String) :
    (if w.l.verbose then logInfo w msg else w).l.basePath = w.l.basePath := by
  split
  · rw [logInfo_l]
  · rfl

theorem step_basePath (L : Lib) (w w1 : World) (e : Event) (he : e.isStart = false)
    (hs : step L w e = some w1) : w1.l.basePath = w.l.basePath := by
  cases e with
  | callStart now => simp [Event.isStart] at he
  | callStop => simp only [step, Option.some.injEq] at hs; subst hs; rfl
  | callSetVerbose v => simp only [step, Option.some.injEq] at hs; subst hs; rfl
  | logLine msg => simp only [step, Option.some.injEq] at hs; subst hs; rw [logInfo_l]
  | callRotate now =>
    simp only [step, Option.some.injEq] at hs; subst hs
    unfold Rotate
    rw [rotateLog_basePath, verbose_basePath]
  | loop m now =>
    simp only [step, Option.some.injEq] at hs; subst hs
    rcases rotate_cases L w m now with hc | hc | ⟨t, msg, b, hc⟩
    · rw [hc]
    · rw [hc]
    · rw [hc]
      show (rotateLog L _ t now).2.l.basePath = _
      rw [rotateLog_basePath, verbose_basePath]

theorem run_basePath (L : Lib) (evs : List Event) :
    ∀ (w w1 : World), (∀ e ∈ evs, e.isStart = false) → run L w evs = some w1 →
      w1.l.basePath = w.l.basePath := by
  induction evs with
  | nil =>
    intro w w1 _ hr
    simp only [run, Option.some.injEq] at hr
    subst hr; rfl
  | cons e es ih =>
    intro w w1 hns hr
    unfold run at hr
    split at hr
    · simp at hr
    · rename_i w2 hs
      rw [ih w2 w1 (fun x hx => hns x (List.mem_cons_of_mem _ hx)) hr]
      exact step_basePath L w w2 e (hns e (List.mem_cons_self _ _)) hs

/-! ## Start and New -/

/-- A call of `Start` on an inactive engine that leaves it active opened the backing
    file and created the initial link. -/
theorem Start_active (L : Lib) (w : World) (now : Time) (r : Option GoErr × World)
    (hs : Start L w now = some r) (hpre : w.l.active = false) (hact : r.2.l.active = true) :
    ∃ fs1 f, openFile L w.fs w.l.basePath true false = .ok (fs1, f) ∧
      (link L fs1 w.l.basePath (w.l.basePath ++ "." ++ (w.l.getSuffix L now now).1)).2 = none ∧
      r.1 = none ∧
      r.2.l.f = some f ∧ r.2.l.basePath = w.l.basePath ∧
      r.2.fs = (link L fs1 w.l.basePath (w.l.basePath ++ "." ++ (w.l.getSuffix L now now).1)).1 ∧
      r.2.logOut = Writer.file f := by
  unfold Start at hs
  split at hs
  · simp only [Option.some.injEq] at hs
    subst hs
    simp [hpre] at hact
  · rename_i fs1 f hopen
    dsimp only at hs
    split at hs
    · simp only [Option.some.injEq] at hs
      subst hs
      have : (w.l.getSuffix L now now).2.active = false := by rw [getSuffix_active]; exact hpre
      simp [this] at hact
    · rename_i fs2 hlink
      split at hs
      · simp at hs
      · simp only [Option.some.injEq] at hs
        subst hs
        refine ⟨fs1, f, hopen, ?_, rfl, rfl, ?_, ?_, rfl⟩
        · rw [hlink]
        · exact getSuffix_basePath L w.l now now
        · show fs2 = _
          rw [hlink]

theorem remove_lookup_base (L : Lib) (fs : FS) (b : String)
    (hnd : fs.lookup b ≠ some Entry.dir) :
    ∀ q, (remove L fs b).1.lookup q = if q = b then none else fs.lookup q := by
  intro q
  cases hb : fs.lookup b with
  | none =>
    rw [remove_absent L fs b hb]
    by_cases hq : q = b
    · rw [if_pos hq, hq]; exact hb
    · rw [if_neg hq]
  | some e =>
    cases e with
    | dir => exact absurd hb hnd
    | file i =>
      rw [remove_file L fs b i hb]
      simp only [FS.lookup]
      exact lookup_erase_eq _ _ _

theorem remove_nextFd (L : Lib) (fs : FS) (b : String) : (remove L fs b).1.nextFd = fs.nextFd := by
  unfold remove
  split
  · rfl
  · rfl
  · split <;> rfl

/-- The engine `New` returns, when its `Start` succeeded, satisfies the invariant:
    the base path and the initial archive are the two names of a new inode. -/
theorem New_WInv (L : Lib) (fs0 : FS) (logOut stdLogOut : Writer) (now : Time)
    (basePath : String) (interval sizeMb : Int) (format : String) (w0 : World)
    (hnew : New L fs0 logOut stdLogOut now basePath interval sizeMb format = some (.ok w0))
    (hact : w0.l.active = true)
    (hstale : ∀ q j, isArchive basePath q → fs0.lookup q = some (Entry.file j) →
      (remove L fs0 basePath).1.nlink j = 1) :
    WInv L w0 ∧ w0.l.basePath = basePath := by
  unfold New at hnew
  split at hnew
  · simp at hnew
  · simp at hnew
  · rename_i hpar
    split at hnew
    · simp at hnew
    · rename_i hnd
      split at hnew
      · simp at hnew
      · split at hnew
        · simp at hnew
        · rename_i r hs
          simp only [Option.some.injEq, Except.ok.injEq] at hnew
          subst hnew
          obtain ⟨fs1, f, hopen, hlink, _, hf, hbp, hfs, _⟩ :=
            Start_active L _ now r hs rfl hact
          have hbp0 : (initWorld L fs0 logOut stdLogOut basePath interval sizeMb format).l.basePath
              = basePath := rfl
          have hfs0 : (initWorld L fs0 logOut stdLogOut basePath interval sizeMb format).fs
              = (remove L fs0 basePath).1 := rfl
          rw [hbp0] at hopen hlink hfs hbp
          rw [hfs0] at hopen
          generalize ((initWorld L fs0 logOut stdLogOut basePath interval sizeMb format).l.getSuffix
            L now now).1 = sfx at hlink hfs
          have hrm := remove_lookup_base L fs0 basePath hnd
          obtain ⟨o1, o2, o3, o4, o5⟩ := openFile_ok L _ fs1 basePath false f hopen
          have hfresh : ∀ q, (remove L fs0 basePath).1.lookup q ≠ some (Entry.file f.ino) := by
            rcases o5 with h | h
            · rw [hrm, if_pos rfl] at h; simp at h
            · exact h.2.1
          obtain ⟨i, l1, l2, l3⟩ := link_ok_inv L fs1 basePath _ hlink
          have hi : i = f.ino := by
            rw [o4, if_pos rfl] at l1
            simp only [Option.some.injEq, Entry.file.injEq] at l1
            exact l1.symm
          subst hi
          rw [link_ok L fs1 basePath _ f.ino l1 l2 l3] at hfs
          have hpb : basePath ++ "." ++ sfx ≠ basePath := archive_ne_base _ _ ⟨sfx, rfl⟩
          have hdb : L.dirOf basePath ≠ basePath := by
            intro he; rw [he] at hpar; exact hnd hpar
          have hlook : ∀ q, r.2.fs.lookup q =
              if q = basePath ++ "." ++ sfx ∨ q = basePath then some (Entry.file f.ino)
              else fs0.lookup q := by
            intro q
            rw [hfs]
            simp only [FS.lookup]
            rw [lookup_insert_eq]
            have := o4 q
            simp only [FS.lookup] at this
            rw [this]
            have := hrm q
            simp only [FS.lookup] at this
            rw [this]
            by_cases h1 : q = basePath ++ "." ++ sfx
            · simp [h1]
            · by_cases h2 : q = basePath
              · simp [h2]
              · simp [h1, h2]
          have hold : ∀ q j, j ≠ f.ino → r.2.fs.lookup q = some (Entry.file j) →
              q ≠ basePath ∧ (remove L fs0 basePath).1.lookup q = some (Entry.file j) ∧
              fs0.lookup q = some (Entry.file j) := by
            intro q j hne hq
            rw [hlook] at hq
            by_cases hc : q = basePath ++ "." ++ sfx ∨ q = basePath
            · rw [if_pos hc] at hq
              simp at hq
              exact absurd hq.symm hne
            · rw [if_neg hc] at hq
              refine ⟨fun hb => hc (Or.inr hb), ?_, hq⟩
              rw [hrm, if_neg (fun hb => hc (Or.inr hb))]
              exact hq
          refine ⟨⟨f.fd, f.ino, basePath ++ "." ++ sfx, hf, ?_, ?_, ?_⟩, hbp⟩
          · rw [hfs]
            show f.fd ∈ fs1.openFds
            rw [o3, o1]; exact List.mem_cons_self _ _
          · rw [hfs]
            show f.fd < fs1.nextFd
            rw [o2, o1]; exact Nat.lt_succ_self _
          · rw [hbp]
            refine ⟨?_, ?_, ⟨sfx, rfl⟩, ?_, ?_, ?_⟩
            · rw [hlook, if_pos (Or.inr rfl)]
            · rw [hlook, if_pos (Or.inl rfl)]
            · intro q hq
              rw [hlook] at hq
              by_cases hc : q = basePath ++ "." ++ sfx ∨ q = basePath
              · exact hc.symm
              · rw [if_neg hc] at hq
                have := hfresh q
                rw [hrm, if_neg (fun hb => hc (Or.inr hb))] at this
                exact absurd hq this
            · intro q j hqa hq hne q1 hq1
              obtain ⟨_, h1, h2⟩ := hold q j hne hq
              obtain ⟨_, h3, _⟩ := hold q1 j hne hq1
              exact nlink_one_unique _ j (hstale q j hqa h2) q q1 h1 h3
            · rw [hlook, if_neg]
              · exact hpar
              · rintro (h1 | h1)
                · rw [h1] at hpar
                  have := o4 (basePath ++ "." ++ sfx)
                  rw [if_neg hpb, l2, hrm, if_neg hpb, hpar] at this
                  simp at this
                · exact hdb h1
/-! ## From `New` to the first rotation -/

theorem remove_data (L : Lib) (fs : FS) (b : String) : (remove L fs b).1.data = fs.data := by
  unfold remove
  split
  · rfl
  · rfl
  · split <;> rfl

theorem loggedLines_append (es1 es2 : List Event) :
    loggedLines (es1 ++ es2) = loggedLines es1 ++ loggedLines es2 := by
  induction es1 with
  | nil => rfl
  | cons e es ih => simp [loggedLines, ih]

/-- The engine `New` returns, when its `Start` succeeded: the logger writes to
    the handle of a new, empty file named by the base path and the initial archive. -/
theorem New_firstInv (L : Lib) (fs0 : FS) (logOut stdLogOut : Writer) (now : Time)
    (basePath : String) (interval sizeMb : Int) (format : String) (w0 : World)
    (hnew : New L fs0 logOut stdLogOut now basePath interval sizeMb format = some (.ok w0))
    (hact : w0.l.active = true) :
    w0.l.basePath = basePath ∧ ∃ fd i a, FirstInv L basePath fs0 w0 fd i a [] := by
  unfold New at hnew
  split at hnew
  · simp at hnew
  · simp at hnew
  · rename_i hpar
    split at hnew
    · simp at hnew
    · rename_i hnd
      split at hnew
      · simp at hnew
      · split at hnew
        · simp at hnew
        · rename_i r hs
          simp only [Option.some.injEq, Except.ok.injEq] at hnew
          subst hnew
          obtain ⟨fs1, f, hopen, hlink, _, hf, hbp, hfs, hout⟩ :=
            Start_active L _ now r hs rfl hact
          have hbp0 : (initWorld L fs0 logOut stdLogOut basePath interval sizeMb format).l.basePath
              = basePath := rfl
          have hfs0 : (initWorld L fs0 logOut stdLogOut basePath interval sizeMb format).fs
              = (remove L fs0 basePath).1 := rfl
          rw [hbp0] at hopen hlink hfs hbp
          rw [hfs0] at hopen
          generalize ((initWorld L fs0 logOut stdLogOut basePath interval sizeMb format).l.getSuffix
            L now now).1 = sfx at hlink hfs
          have hrm := remove_lookup_base L fs0 basePath hnd
          obtain ⟨o1, o2, o3, o4, o5⟩ := openFile_ok L _ fs1 basePath false f hopen
          have hfresh : ∀ q, (remove L fs0 basePath).1.lookup q ≠ some (Entry.file f.ino) := by
            rcases o5 with h | h
            · rw [hrm, if_pos rfl] at h; simp at h
            · exact h.2.1
          have hdata : fs1.data = Function.update fs0.data f.ino [] := by
            rcases o5 with h | h
            · rw [hrm, if_pos rfl] at h; simp at h
            · rw [h.2.2, remove_data]
          obtain ⟨i, l1, l2, l3⟩ := link_ok_inv L fs1 basePath _ hlink
          have hi : i = f.ino := by
            rw [o4, if_pos rfl] at l1
            simp only [Option.some.injEq, Entry.file.injEq] at l1
            exact l1.symm
          subst hi
          rw [link_ok L fs1 basePath _ f.ino l1 l2 l3] at hfs
          have hpb : basePath ++ "." ++ sfx ≠ basePath := archive_ne_base _ _ ⟨sfx, rfl⟩
          have hdb : L.dirOf basePath ≠ basePath := by
            intro he; rw [he] at hpar; exact hnd hpar
          have hlook : ∀ q, r.2.fs.lookup q =
              if q = basePath ++ "." ++ sfx ∨ q = basePath then some (Entry.file f.ino)
              else fs0.lookup q := by
            intro q
            rw [hfs]
            simp only [FS.lookup]
            rw [lookup_insert_eq]
            have := o4 q
            simp only [FS.lookup] at this
            rw [this]
            have := hrm q
            simp only [FS.lookup] at this
            rw [this]
            by_cases h1 : q = basePath ++ "." ++ sfx
            · simp [h1]
            · by_cases h2 : q = basePath
              · simp [h2]
              · simp [h1, h2]
          have hd2 : r.2.fs.data = Function.update fs0.data f.ino [] := by
            rw [hfs]; exact hdata
          refine ⟨hbp, f.fd, f.ino, basePath ++ "." ++ sfx, ?_⟩
          refine ⟨hf, hout, ?_, ?_, ?_, ?_, ⟨sfx, rfl⟩, ?_, ?_, ?_, ?_⟩
          · rw [hfs]
            show f.fd ∈ fs1.openFds
            rw [o3, o1]; exact List.mem_cons_self _ _
          · rw [hfs]
            show f.fd < fs1.nextFd
            rw [o2, o1]; exact Nat.lt_succ_self _
          · rw [hlook, if_pos (Or.inr rfl)]
          · rw [hlook, if_pos (Or.inl rfl)]
          · intro q hq
            rw [hlook] at hq
            by_cases hc : q = basePath ++ "." ++ sfx ∨ q = basePath
            · exact hc.symm
            · rw [if_neg hc] at hq
              have := hfresh q
              rw [hrm, if_neg (fun hb => hc (Or.inr hb))] at this
              exact absurd hq this
          · rw [hlook, if_neg]
            · exact hpar
            · rintro (h1 | h1)
              · rw [h1] at hpar
                have := o4 (basePath ++ "." ++ sfx)
                rw [if_neg hpb, l2, hrm, if_neg hpb, hpar] at this
                simp at this
              · exact hdb h1
          · rw [hd2]; exact Function.update_same _ _ _
          · intro j hj
            rw [hd2]; exact Function.update_noteq hj _ _

/-- A line logged through the logrus logger, while its output is the open handle
    of the engine, is appended to the engine's current file and to no other. -/
theorem firstInv_logInfo {L : Lib} {b : String} {fs0 : FS} {w : World} {fd i : Nat}
    {a : String} {lines : List String} (h : FirstInv L b fs0 w fd i a lines) (msg : String) :
    FirstInv L b fs0 (logInfo w msg) fd i a (lines ++ [msg]) := by
  have hw : logInfo w msg =
      { w with fs := { w.fs with
          data := Function.update w.fs.data i (w.fs.data i ++ [msg]) } } := by
    unfold logInfo
    rw [h.output]
    simp only [writeFile, h.isOpen, if_true]
  rw [hw]
  refine ⟨h.handle, h.output, h.isOpen, h.below, h.base, h.arch, h.isArch, h.only, h.parent,
    ?_, ?_⟩
  · show Function.update w.fs.data i (w.fs.data i ++ [msg]) i = lines ++ [msg]
    rw [Function.update_same, h.content]
  · intro j hj
    show Function.update w.fs.data i (w.fs.data i ++ [msg]) j = fs0.data j
    rw [Function.update_noteq hj]
    exact h.rest j hj

theorem firstInv_step {L : Lib} {b : String} {fs0 : FS} {w w1 : World} {fd i : Nat}
    {a : String} {lines : List String} (h : FirstInv L b fs0 w fd i a lines) (e : Event)
    (he : e.isStart = false ∧ e.isTrigger = false) (hs : step L w e = some w1) :
    FirstInv L b fs0 w1 fd i a (lines ++ e.line) := by
  have hkeep : FirstInv L b fs0 w fd i a (lines ++ []) := by
    rw [List.append_nil]; exact h
  cases e with
  | callStart now => simp [Event.isStart] at he
  | callRotate now => simp [Event.isTrigger] at he
  | callStop =>
    simp only [step, Option.some.injEq] at hs; subst hs
    exact ⟨hkeep.handle, hkeep.output, hkeep.isOpen, hkeep.below, hkeep.base, hkeep.arch,
      hkeep.isArch, hkeep.only, hkeep.parent, hkeep.content, hkeep.rest⟩
  | callSetVerbose v =>
    simp only [step, Option.some.injEq] at hs; subst hs
    exact ⟨hkeep.handle, hkeep.output, hkeep.isOpen, hkeep.below, hkeep.base, hkeep.arch,
      hkeep.isArch, hkeep.only, hkeep.parent, hkeep.content, hkeep.rest⟩
  | logLine msg =>
    simp only [step, Option.some.injEq] at hs; subst hs
    exact firstInv_logInfo h msg
  | loop m now =>
    simp only [step, Option.some.injEq] at hs; subst hs
    cases m with
    | tick t => simp [Event.isTrigger] at he
    | forceRotate t => simp [Event.isTrigger] at he
    | appDone =>
      unfold rotate
      split
      · exact hkeep
      · exact ⟨hkeep.handle, hkeep.output, hkeep.isOpen, hkeep.below, hkeep.base, hkeep.arch,
          hkeep.isArch, hkeep.only, hkeep.parent, hkeep.content, hkeep.rest⟩

theorem firstInv_run {L : Lib} {b : String} {fs0 : FS} {fd i : Nat} {a : String}
    (evs : List Event) :
    ∀ {w w1 : World} {lines : List String}, FirstInv L b fs0 w fd i a lines →
      (∀ e ∈ evs, e.isStart = false ∧ e.isTrigger = false) → run L w evs = some w1 →
      FirstInv L b fs0 w1 fd i a (lines ++ loggedLines evs) := by
  induction evs with
  | nil =>
    intro w w1 lines h _ hr
    simp only [run, Option.some.injEq] at hr
    subst hr
    simpa [loggedLines] using h
  | cons e es ih =>
    intro w w1 lines h hns hr
    unfold run at hr
    split at hr
    · simp at hr
    · rename_i w2 hs
      have h2 := firstInv_step h e (hns e (List.mem_cons_self _ _)) hs
      have h3 := ih h2 (fun x hx => hns x (List.mem_cons_of_mem _ hx)) hr
      simpa [loggedLines, List.append_assoc] using h3
/-! ## Facts used by the claims -/

theorem exFS_no_file (q : String) (j : Nat) : exFS.lookup q ≠ some (Entry.file j) := by
  unfold exFS FS.lookup
  rw [lookup_insert_eq]
  split
  · simp
  · simp

theorem New_useIncrement (L : Lib) (fs : FS) (logOut stdLogOut : Writer) (now : Time)
    (basePath : String) (interval sizeMb : Int) (format : String) (w : World)
    (hnew : New L fs logOut stdLogOut now basePath interval sizeMb format = some (.ok w)) :
    w.l.useIncrement = useIncrementOf format := by
  have hg : ∀ (l : Logrotate) (t n : Time),
      (l.getSuffix L t n).2.useIncrement = l.useIncrement := by
    intro l t n
    unfold Logrotate.getSuffix; dsimp only; split <;> rfl
  unfold New at hnew
  split at hnew
  · simp at hnew
  · simp at hnew
  · split at hnew
    · simp at hnew
    · split at hnew
      · simp at hnew
      · split at hnew
        · simp at hnew
        · rename_i r hs
          simp only [Option.some.injEq, Except.ok.injEq] at hnew
          subst hnew
          unfold Start at hs
          split at hs
          · simp only [Option.some.injEq] at hs
            subst hs; rfl
          · dsimp only at hs
            split at hs
            · simp only [Option.some.injEq] at hs
              subst hs
              exact hg _ _ _
            · split at hs
              · simp at hs
              · simp only [Option.some.injEq] at hs
                subst hs
                exact hg _ _ _

theorem wrap64_succ (k : Nat) (hk : k + 1 < 9223372036854775808) :
    wrap64 ((k : Int) + 1) = ((k + 1 : Nat) : Int) := by
  unfold wrap64
  push_cast
  omega

theorem sprintD_nat (k : Nat) : sprintD (k : Int) = Nat.repr k := by
  unfold sprintD
  have : ¬ ((k : Int) < 0) := by omega
  rw [if_neg this]
  simp

theorem suffixSeq_increment (L : Lib) (calls : List (Time × Time)) :
    ∀ (l : Logrotate) (k n : Nat), l.useIncrement = true → l.incrementedSuffix = (k : Int) →
      n < calls.length → k + n < 9223372036854775808 →
      (suffixSeq L l calls)[n]? = some (Nat.repr (k + n)) := by
  induction calls with
  | nil => intro l k n _ _ hn _; simp at hn
  | cons c cs ih =>
    intro l k n hu hk hn hb
    have h1 : (l.getSuffix L c.1 c.2).1 = Nat.repr k := by
      unfold Logrotate.getSuffix
      simp only [hu, if_true, hk]
      exact sprintD_nat k
    cases n with
    | zero => simp [suffixSeq, h1]
    | succ n =>
      have h2 : (l.getSuffix L c.1 c.2).2.useIncrement = true := by
        unfold Logrotate.getSuffix
        simp only [hu, if_true]
      have h3 : (l.getSuffix L c.1 c.2).2.incrementedSuffix = ((k + 1 : Nat) : Int) := by
        unfold Logrotate.getSuffix
        simp only [hu, if_true, hk]
        exact wrap64_succ k (by omega)
      have := ih (l.getSuffix L c.1 c.2).2 (k + 1) n h2 h3
        (by simpa using hn) (by omega)
      simp only [suffixSeq, List.getElem?_cons_succ]
      rw [this]
      congr 2
      omega

theorem run_dead (L : Lib) (evs : List Event) :
    ∀ (w w1 : World), w.loopAlive = false → run L w evs = some w1 → w1.loopAlive = false := by
  induction evs with
  | nil =>
    intro w w1 h hr
    simp only [run, Option.some.injEq] at hr
    subst hr; exact h
  | cons e es ih =>
    intro w w1 h hr
    unfold run at hr
    split at hr
    · simp at hr
    · rename_i w2 hs
      refine ih w2 w1 ?_ hr
      have hrl : ∀ (v : World) (t n : Time),
          (rotateLog L v t n).2.loopAlive = v.loopAlive := by
        intro v t n
        unfold rotateLog
        split
        · rfl
        · dsimp only
          split <;> rfl
      cases e with
      | callStart now =>
        simp only [step, Option.map_eq_some'] at hs
        obtain ⟨r, hr1, hr2⟩ := hs
        subst hr2
        unfold Start at hr1
        split at hr1
        · simp only [Option.some.injEq] at hr1
          subst hr1; exact h
        · dsimp only at hr1
          split at hr1
          · simp only [Option.some.injEq] at hr1
            subst hr1; exact h
          · split at hr1
            · simp at hr1
            · simp only [Option.some.injEq] at hr1
              subst hr1; exact h
      | callStop => simp only [step, Option.some.injEq] at hs; subst hs; exact h
      | callSetVerbose v => simp only [step, Option.some.injEq] at hs; subst hs; exact h
      | logLine msg =>
        simp only [step, Option.some.injEq] at hs; subst hs
        rw [logInfo_loopAlive]; exact h
      | callRotate now =>
        simp only [step, Option.some.injEq] at hs; subst hs
        unfold Rotate
        rw [hrl]
        split
        · rw [logInfo_loopAlive]; exact h
        · exact h
      | loop m now =>
        simp only [step, Option.some.injEq] at hs; subst hs
        unfold rotate
        simp [h]

theorem rotate_dead (L : Lib) (w : World) (m : LoopMsg) (now : Time)
    (h : w.loopAlive = false) : rotate L w m now = w := by
  unfold rotate
  simp [h]

/-- The scenario of `testWithFormat` with the format `"8"`: two names with two links
    after `New`, then one more archive per rotation, the base path and the newest
    archive sharing an inode with two links and the older archives having one. -/
theorem testWithFormat_sequential :
    exW8.fs.entries.keys = ["/tmp/x.log.0", "/tmp/x.log", "/tmp"] ∧
    exW8.fs.lookup "/tmp/x.log" = some (Entry.file 0) ∧
    exW8.fs.lookup "/tmp/x.log.0" = some (Entry.file 0) ∧
    exW8.fs.nlink 0 = 2 ∧
    (exRun exW8 [Event.callRotate 7]).fs.entries.keys
      = ["/tmp/x.log", "/tmp/x.log.1", "/tmp/x.log.0", "/tmp"] ∧
    (List.range 2).map (exRun exW8 [Event.callRotate 7]).fs.nlink = [1, 2] ∧
    (exRun exW8 [Event.callRotate 7, Event.loop (LoopMsg.tick 9) 9]).fs.entries.keys
      = ["/tmp/x.log", "/tmp/x.log.2", "/tmp/x.log.1", "/tmp/x.log.0", "/tmp"] ∧
    (List.range 3).map
      (exRun exW8 [Event.callRotate 7, Event.loop (LoopMsg.tick 9) 9]).fs.nlink = [1, 1, 2] := by
  decide

/-- At any rotation boundary of an engine that `Start` was not called on again,
    on a file system where every archive left over has link count 1 once
    `basePath` is unlinked: if the rotation step returns nil and its archive path
    did not exist before the step, the file of the current handle `l.f` keeps its
    content, is named afterwards by exactly one path, an archive path, and the new
    current file is a different inode that is empty. -/
theorem current_file_kept_at_fresh_rotation (L : Lib) (fs0 : FS) (logOut stdLogOut : Writer)
    (now0 : Time) (basePath : String) (interval sizeMb : Int) (format : String)
    (w0 w : World) (evs : List Event) (t now : Time)
    (hnew : New L fs0 logOut stdLogOut now0 basePath interval sizeMb format = some (.ok w0))
    (hstart : w0.l.active = true)
    (hstale : ∀ q j, isArchive basePath q → fs0.lookup q = some (Entry.file j) →
      (remove L fs0 basePath).1.nlink j = 1)
    (hevs : ∀ e ∈ evs, e.isStart = false)
    (hrun : run L w0 evs = some w)
    (hact : w.l.active = true)
    (hfresh : w.fs.lookup (basePath ++ "." ++ (w.l.getSuffix L t now).1) = none)
    (hok : (rotateLog L w t now).1 = none) :
    ∃ f g a, w.l.f = some f ∧ w.fs.lookup basePath = some (Entry.file f.ino) ∧
      isArchive basePath a ∧
      (rotateLog L w t now).2.fs.data f.ino = w.fs.data f.ino ∧
      (∀ q, (rotateLog L w t now).2.fs.lookup q = some (Entry.file f.ino) ↔ q = a) ∧
      (rotateLog L w t now).2.l.f = some g ∧ g.ino ≠ f.ino ∧
      (rotateLog L w t now).2.fs.lookup basePath = some (Entry.file g.ino) ∧
      (rotateLog L w t now).2.fs.lookup (basePath ++ "." ++ (w.l.getSuffix L t now).1)
        = some (Entry.file g.ino) ∧
      (rotateLog L w t now).2.fs.data g.ino = [] := by
  obtain ⟨hw0, hb0⟩ := New_WInv L fs0 logOut stdLogOut now0 basePath interval sizeMb format w0
    hnew hstart hstale
  have hw : WInv L w := wInv_run evs hw0 hevs hrun
  have hb : w.l.basePath = basePath := by rw [run_basePath L evs w0 w hevs hrun, hb0]
  obtain ⟨fd, i, a, hf, _, hlt, hinv⟩ := hw
  obtain ⟨fs1, nf, hopen⟩ := rotateLog_ok_opened L w t now hact hok
  obtain ⟨_, s2, _, _, _, _, s7, s8, s9⟩ :=
    rotateLog_spec L w t now fd i a fs1 nf hf hlt hinv hact hopen
  rw [hb] at s7 s8 hinv
  have hnew_ino : ∀ q, w.fs.lookup q ≠ some (Entry.file nf.ino) := by
    rcases s8 with h | h
    · rw [hfresh] at h; simp at h
    · exact h.2
  have hne : nf.ino ≠ i := by
    intro he
    exact hnew_ino basePath (by rw [he]; exact hinv.base)
  have hab : a ≠ basePath := archive_ne_base _ _ hinv.isArch
  have hap : a ≠ basePath ++ "." ++ (w.l.getSuffix L t now).1 := by
    intro he
    have := hinv.arch
    rw [he, hfresh] at this
    simp at this
  refine ⟨⟨fd, i⟩, nf, a, hf, hinv.base, hinv.isArch, ?_, ?_, s2, hne, ?_, ?_, ?_⟩
  · rw [s9]
    exact Function.update_noteq (Ne.symm hne) _ _
  · intro q
    rw [s7]
    constructor
    · intro hq
      by_cases hc : q = basePath ∨ q = basePath ++ "." ++ (w.l.getSuffix L t now).1
      · rw [if_pos hc] at hq
        simp only [Option.some.injEq, Entry.file.injEq] at hq
        exact absurd hq hne
      · rw [if_neg hc] at hq
        rcases hinv.only q hq with h1 | h1
        · exact absurd (Or.inl h1) hc
        · exact h1
    · intro hq
      subst hq
      rw [if_neg (by rintro (h1 | h1) <;> contradiction)]
      exact hinv.arch
  · rw [s7, if_pos (Or.inl rfl)]
  · rw [s7, if_pos (Or.inr rfl)]
  · rw [s9]
    exact Function.update_same _ _ _

/-! ## Claims -/

/-- C1: on the engine returned by `New(log, "/tmp/x.log", 5, 0, "8")`, a rotation
    step opens the new archive file and returns nil, and afterwards the logrus
    logger still writes to the handle opened by `Start`, which the step closed:
    `rotateLog` redirects the standard library's default logger instead. The
    engine's current handle is the new one, and a line logged through the logrus
    logger after the step reaches no file. -/
theorem rotateLog_redirects_std_logger_only :
    exW8.logOut = Writer.file ⟨3, 0⟩ ∧ exW8.l.f = some ⟨3, 0⟩ ∧ exW8.l.active = true ∧
    (rotateLog exLib exW8 7 7).1 = none ∧
    (rotateLog exLib exW8 7 7).2.l.f = some ⟨4, 1⟩ ∧
    (rotateLog exLib exW8 7 7).2.logOut = Writer.file ⟨3, 0⟩ ∧
    (rotateLog exLib exW8 7 7).2.stdLogOut = Writer.file ⟨4, 1⟩ ∧
    3 ∉ (rotateLog exLib exW8 7 7).2.fs.openFds ∧
    4 ∈ (rotateLog exLib exW8 7 7).2.fs.openFds ∧
    (logInfo (rotateLog exLib exW8 7 7).2 "line 3").fs.data 0 = [] ∧
    (logInfo (rotateLog exLib exW8 7 7).2 "line 3").fs.data 1 = [] := by
  decide

/-- C2, as stated, fails: with the time layout `"x"` every suffix is `"x"`, so the
    rotation step opens the archive that already holds the logged line with
    `O_TRUNC`; afterwards the two files on disk are one empty inode and the line is
    in no file. -/
theorem rotation_truncates_existing_archive :
    (exWorld exFS "x").l.active = true ∧ (exWorld exFS "x").l.useIncrement = false ∧
    (exWorld exFS "x").logOut = Writer.file ⟨3, 0⟩ ∧
    (exRun (exWorld exFS "x") [Event.logLine "line 1"]).fs.data 0 = ["line 1"] ∧
    (Rotate exLib (exRun (exWorld exFS "x") [Event.logLine "line 1"]) 7).1 = none ∧
    (exRun (exWorld exFS "x") [Event.logLine "line 1", Event.callRotate 7]).fs.entries.keys
      = ["/tmp/x.log", "/tmp/x.log.x", "/tmp"] ∧
    (exRun (exWorld exFS "x") [Event.logLine "line 1", Event.callRotate 7]).fs.lookup "/tmp/x.log"
      = some (Entry.file 0) ∧
    (exRun (exWorld exFS "x") [Event.logLine "line 1", Event.callRotate 7]).fs.lookup "/tmp/x.log.x"
      = some (Entry.file 0) ∧
    (exRun (exWorld exFS "x") [Event.logLine "line 1", Event.callRotate 7]).fs.data 0 = [] := by
  decide

/-- C2, amended: take an engine returned by `New` whose initial `Start` succeeded
    and any sequence of events up to its first rotation: lines logged by the
    application through the logrus logger, `Stop`, `SetVerbose` and the shutdown
    message, with no call of `Start` and no rotation trigger. In the state reached
    the logrus logger writes to the current handle `l.f`, and the file at
    `basePath` holds exactly the lines logged, in order. If a rotation step on the
    active engine then returns nil and its archive path did not exist before the
    step, then afterwards the file with the logged lines still holds exactly those
    lines and is named by exactly one path, an archive path; the new current file,
    at `basePath` and at the new archive path, is a different inode that is empty;
    and every other file holds what it held before `New`: no logged line is
    dropped or duplicated across the boundary. -/
theorem logged_lines_archived_by_first_rotation (L : Lib) (fs0 : FS)
    (logOut stdLogOut : Writer) (now0 : Time) (basePath : String) (interval sizeMb : Int)
    (format : String) (w0 w : World) (evs : List Event) (t now : Time)
    (hnew : New L fs0 logOut stdLogOut now0 basePath interval sizeMb format = some (.ok w0))
    (hstart : w0.l.active = true)
    (hevs : ∀ e ∈ evs, e.isStart = false ∧ e.isTrigger = false)
    (hrun : run L w0 evs = some w)
    (hact : w.l.active = true)
    (hfresh : w.fs.lookup (basePath ++ "." ++ (w.l.getSuffix L t now).1) = none)
    (hok : (rotateLog L w t now).1 = none) :
    ∃ f g a, w.l.f = some f ∧ w.logOut = Writer.file f ∧
      w.fs.lookup basePath = some (Entry.file f.ino) ∧
      w.fs.data f.ino = loggedLines evs ∧
      isArchive basePath a ∧
      (rotateLog L w t now).2.fs.data f.ino = loggedLines evs ∧
      (∀ q, (rotateLog L w t now).2.fs.lookup q = some (Entry.file f.ino) ↔ q = a) ∧
      (rotateLog L w t now).2.l.f = some g ∧ g.ino ≠ f.ino ∧
      (rotateLog L w t now).2.fs.lookup basePath = some (Entry.file g.ino) ∧
      (rotateLog L w t now).2.fs.lookup (basePath ++ "." ++ (w.l.getSuffix L t now).1)
        = some (Entry.file g.ino) ∧
      (rotateLog L w t now).2.fs.data g.ino = [] ∧
      ∀ j, j ≠ f.ino → j ≠ g.ino → (rotateLog L w t now).2.fs.data j = fs0.data j := by
  obtain ⟨hb0, fd, i, a, h0⟩ := New_firstInv L fs0 logOut stdLogOut now0 basePath interval
    sizeMb format w0 hnew hstart
  have hw := firstInv_run evs h0 hevs hrun
  rw [List.nil_append] at hw
  have hb : w.l.basePath = basePath := by
    rw [run_basePath L evs w0 w (fun e he => (hevs e he).1) hrun, hb0]
  obtain ⟨fs1, nf, hopen⟩ := rotateLog_ok_opened L w t now hact hok
  obtain ⟨_, s2, _, _, _, _, s7, s8, s9⟩ :=
    rotateLog_effect L w t now fd i fs1 nf hw.handle hw.below (by rw [hb]; exact hw.base)
      (by rw [hb]; exact hw.parent) hact hopen
  rw [hb] at s7 s8
  have hnew_ino : ∀ q, w.fs.lookup q ≠ some (Entry.file nf.ino) := by
    rcases s8 with h | h
    · rw [hfresh] at h; simp at h
    · exact h.2
  have hne : nf.ino ≠ i := by
    intro he
    exact hnew_ino basePath (by rw [he]; exact hw.base)
  have hab : a ≠ basePath := archive_ne_base _ _ hw.isArch
  have hap : a ≠ basePath ++ "." ++ (w.l.getSuffix L t now).1 := by
    intro he
    have := hw.arch
    rw [he, hfresh] at this
    simp at this
  refine ⟨⟨fd, i⟩, nf, a, hw.handle, hw.output, hw.base, hw.content, hw.isArch, ?_, ?_, s2, hne,
    ?_, ?_, ?_, ?_⟩
  · rw [s9]
    show Function.update w.fs.data nf.ino [] i = loggedLines evs
    rw [Function.update_noteq (Ne.symm hne)]
    exact hw.content
  · intro q
    rw [s7]
    constructor
    · intro hq
      by_cases hc : q = basePath ∨ q = basePath ++ "." ++ (w.l.getSuffix L t now).1
      · rw [if_pos hc] at hq
        simp only [Option.some.injEq, Entry.file.injEq] at hq
        exact absurd hq hne
      · rw [if_neg hc] at hq
        rcases hw.only q hq with h1 | h1
        · exact absurd (Or.inl h1) hc
        · exact h1
    · intro hq
      subst hq
      rw [if_neg (by rintro (h1 | h1) <;> contradiction)]
      exact hw.arch
  · rw [s7, if_pos (Or.inl rfl)]
  · rw [s7, if_pos (Or.inr rfl)]
  · rw [s9]
    exact Function.update_same _ _ _
  · intro j hj1 hj2
    rw [s9]
    show Function.update w.fs.data nf.ino [] j = fs0.data j
    rw [Function.update_noteq hj2]
    exact hw.rest j hj1

/-- C3, as stated, fails: after `New`, `Stop()`, `Start()` and a successful
    `Rotate()`, the two earlier archives `/tmp/x.log.0` and `/tmp/x.log.1` name the
    same inode, whose link count is 2. -/
theorem restart_leaves_archive_with_two_links :
    exW8.l.active = true ∧
    (run exLib exW8 [Event.callStop, Event.callStart 6]).isSome = true ∧
    (exRun exW8 [Event.callStop, Event.callStart 6]).l.active = true ∧
    (Rotate exLib (exRun exW8 [Event.callStop, Event.callStart 6]) 7).1 = none ∧
    (exRun exW8 [Event.callStop, Event.callStart 6, Event.callRotate 7]).fs.lookup "/tmp/x.log"
      = some (Entry.file 1) ∧
    (exRun exW8 [Event.callStop, Event.callStart 6, Event.callRotate 7]).fs.lookup "/tmp/x.log.2"
      = some (Entry.file 1) ∧
    (exRun exW8 [Event.callStop, Event.callStart 6, Event.callRotate 7]).fs.lookup "/tmp/x.log.0"
      = some (Entry.file 0) ∧
    (exRun exW8 [Event.callStop, Event.callStart 6, Event.callRotate 7]).fs.lookup "/tmp/x.log.1"
      = some (Entry.file 0) ∧
    (exRun exW8 [Event.callStop, Event.callStart 6, Event.callRotate 7]).fs.nlink 0 = 2 := by
  decide

/-- C3, amended: take an engine returned by `New` whose initial `Start` succeeded,
    on a file system where every archive left over has link count 1 once
    `basePath` is unlinked, and any sequence of `Stop`, `SetVerbose`, `Rotate`,
    loop messages and logged lines that does not call `Start` again. Immediately
    after a rotation step that returns nil on the active engine reached,
    `basePath` and the newest archive name the same inode, that inode has link
    count 2, and every other archive has link count 1. -/
theorem links_after_rotation (L : Lib) (fs0 : FS) (logOut stdLogOut : Writer)
    (now0 : Time) (basePath : String) (interval sizeMb : Int) (format : String)
    (w0 w : World) (evs : List Event) (t now : Time)
    (hnew : New L fs0 logOut stdLogOut now0 basePath interval sizeMb format = some (.ok w0))
    (hstart : w0.l.active = true)
    (hstale : ∀ q j, isArchive basePath q → fs0.lookup q = some (Entry.file j) →
      (remove L fs0 basePath).1.nlink j = 1)
    (hevs : ∀ e ∈ evs, e.isStart = false)
    (hrun : run L w0 evs = some w)
    (hact : w.l.active = true)
    (hok : (rotateLog L w t now).1 = none) :
    ∃ i, (rotateLog L w t now).2.fs.lookup basePath = some (Entry.file i) ∧
      (rotateLog L w t now).2.fs.lookup (basePath ++ "." ++ (w.l.getSuffix L t now).1)
        = some (Entry.file i) ∧
      (rotateLog L w t now).2.fs.nlink i = 2 ∧
      ∀ q j, isArchive basePath q → q ≠ basePath ++ "." ++ (w.l.getSuffix L t now).1 →
        (rotateLog L w t now).2.fs.lookup q = some (Entry.file j) →
        (rotateLog L w t now).2.fs.nlink j = 1 := by
  obtain ⟨hw0, hb0⟩ := New_WInv L fs0 logOut stdLogOut now0 basePath interval sizeMb format w0
    hnew hstart hstale
  have hw : WInv L w := wInv_run evs hw0 hevs hrun
  have hb : w.l.basePath = basePath := by rw [run_basePath L evs w0 w hevs hrun, hb0]
  obtain ⟨fd, i, a, hf, _, hlt, hinv⟩ := hw
  obtain ⟨fs1, nf, hopen⟩ := rotateLog_ok_opened L w t now hact hok
  obtain ⟨_, _, _, _, _, _, s7, s8, _⟩ :=
    rotateLog_spec L w t now fd i a fs1 nf hf hlt hinv hact hopen
  have hinv1 := linkInv_rotate hinv ⟨_, rfl⟩ s7 s8
  rw [hb] at hinv1
  have hpb : basePath ++ "." ++ (w.l.getSuffix L t now).1 ≠ basePath :=
    archive_ne_base _ _ hinv1.isArch
  refine ⟨nf.ino, hinv1.base, hinv1.arch, ?_, ?_⟩
  · rw [nlink_eq_length _ _ [basePath, basePath ++ "." ++ (w.l.getSuffix L t now).1]]
    · rfl
    · simp [Ne.symm hpb]
    · intro q
      constructor
      · intro hq
        rcases hinv1.only q hq with h1 | h1
        · simp [h1]
        · simp [h1]
      · intro hq
        simp only [List.mem_cons, List.mem_singleton, List.not_mem_nil, or_false] at hq
        rcases hq with h1 | h1
        · rw [h1]; exact hinv1.base
        · rw [h1]; exact hinv1.arch
  · intro q j hqa hqp hq
    have hne : j ≠ nf.ino := by
      intro he
      rw [he] at hq
      rcases hinv1.only q hq with h1 | h1
      · exact archive_ne_base _ _ hqa h1
      · exact hqp h1
    rw [nlink_eq_length _ _ [q]]
    · rfl
    · simp
    · intro q1
      constructor
      · intro h1
        simp [hinv1.others q j hqa hq hne q1 h1]
      · intro h1
        simp only [List.mem_singleton] at h1
        rw [h1]; exact hq

/-- C2, amended, at an example: the engine of `New(log, "/tmp/x.log", 5, 0, "8")`,
    two lines logged, then its first rotation step: the two lines are in the file
    of the old handle before and after the step. -/
theorem logged_lines_archived_by_first_rotation_witness :
    exW8.l.active = true ∧ exW8Logged.l.active = true ∧
    loggedLines [Event.logLine "line 1", Event.logLine "line 2"] = ["line 1", "line 2"] ∧
    exW8Logged.fs.lookup ("/tmp/x.log" ++ "." ++ (exW8Logged.l.getSuffix exLib 7 7).1) = none ∧
    (rotateLog exLib exW8Logged 7 7).1 = none ∧
    ∃ f g a, exW8Logged.l.f = some f ∧ exW8Logged.logOut = Writer.file f ∧
      exW8Logged.fs.lookup "/tmp/x.log" = some (Entry.file f.ino) ∧
      exW8Logged.fs.data f.ino = loggedLines [Event.logLine "line 1", Event.logLine "line 2"] ∧
      isArchive "/tmp/x.log" a ∧
      (rotateLog exLib exW8Logged 7 7).2.fs.data f.ino
        = loggedLines [Event.logLine "line 1", Event.logLine "line 2"] ∧
      (∀ q, (rotateLog exLib exW8Logged 7 7).2.fs.lookup q = some (Entry.file f.ino) ↔ q = a) ∧
      (rotateLog exLib exW8Logged 7 7).2.l.f = some g ∧ g.ino ≠ f.ino ∧
      (rotateLog exLib exW8Logged 7 7).2.fs.lookup "/tmp/x.log" = some (Entry.file g.ino) ∧
      (rotateLog exLib exW8Logged 7 7).2.fs.lookup
        ("/tmp/x.log" ++ "." ++ (exW8Logged.l.getSuffix exLib 7 7).1) = some (Entry.file g.ino) ∧
      (rotateLog exLib exW8Logged 7 7).2.fs.data g.ino = [] ∧
      ∀ j, j ≠ f.ino → j ≠ g.ino → (rotateLog exLib exW8Logged 7 7).2.fs.data j = exFS.data j :=
  ⟨by decide, by decide, by decide, by decide, by decide,
   logged_lines_archived_by_first_rotation exLib exFS Writer.other Writer.other 5 "/tmp/x.log"
    5 0 "8" exW8 exW8Logged [Event.logLine "line 1", Event.logLine "line 2"] 7 7
    rfl (by decide) (by decide) rfl (by decide) (by decide) (by decide)⟩

/-- C3, amended, at an example: the engine of `New(log, "/tmp/x.log", 5, 0, "8")`
    after two logged lines and a `Rotate()`, rotated once more. -/
theorem links_after_rotation_witness :
    exW8.l.active = true ∧ exW8Rotated.l.active = true ∧
    (rotateLog exLib exW8Rotated 9 9).1 = none ∧
    ∃ i, (rotateLog exLib exW8Rotated 9 9).2.fs.lookup "/tmp/x.log" = some (Entry.file i) ∧
      (rotateLog exLib exW8Rotated 9 9).2.fs.lookup
        ("/tmp/x.log" ++ "." ++ (exW8Rotated.l.getSuffix exLib 9 9).1) = some (Entry.file i) ∧
      (rotateLog exLib exW8Rotated 9 9).2.fs.nlink i = 2 ∧
      ∀ q j, isArchive "/tmp/x.log" q →
        q ≠ "/tmp/x.log" ++ "." ++ (exW8Rotated.l.getSuffix exLib 9 9).1 →
        (rotateLog exLib exW8Rotated 9 9).2.fs.lookup q = some (Entry.file j) →
        (rotateLog exLib exW8Rotated 9 9).2.fs.nlink j = 1 :=
  ⟨by decide, by decide, by decide,
   links_after_rotation exLib exFS Writer.other Writer.other 5 "/tmp/x.log" 5 0 "8"
    exW8 exW8Rotated [Event.logLine "line 1", Event.logLine "line 2", Event.callRotate 7] 9 9
    rfl (by decide) (fun q j _ h => absurd h (exFS_no_file q j)) (by decide) rfl (by decide)
    (by decide)⟩

/-- C4: after `Stop()`, any sequence of rotation triggers (timer ticks and
    forced-rotation messages with any instants, calls of `Rotate`) runs to its end,
    leaves the engine record, the set of paths and their inodes, the open
    descriptors and the current handle `l.f` as they were, and in the state reached
    every further rotation step returns a nil error and changes nothing, and every
    further `Rotate()` returns a nil error and keeps the handle and the paths. -/
theorem stop_makes_triggers_noops (L : Lib) (w0 : World) (evs : List Event)
    (htr : ∀ e ∈ evs, e.isTrigger = true) :
    ∃ w1, run L (Stop w0) evs = some w1 ∧
      w1.l = (Stop w0).l ∧ w1.l.active = false ∧ w1.l.f = w0.l.f ∧
      w1.fs.entries = w0.fs.entries ∧ w1.fs.openFds = w0.fs.openFds ∧
      (∀ t now, rotateLog L w1 t now = (none, w1)) ∧
      (∀ now, (Rotate L w1 now).1 = none ∧ (Rotate L w1 now).2.l.f = w0.l.f ∧
        (Rotate L w1 now).2.fs.entries = w0.fs.entries) := by
  obtain ⟨w1, hr, hs⟩ := run_triggers_inactive L evs (Stop w0) rfl htr
  have ha : w1.l.active = false := by rw [hs.l_eq]; rfl
  refine ⟨w1, hr, hs.l_eq, ha, ?_, hs.entries_eq, hs.openFds_eq, ?_, ?_⟩
  · rw [hs.l_eq]; rfl
  · intro t now; exact rotateLog_inactive L w1 t now ha
  · intro now
    obtain ⟨h1, h2⟩ := Rotate_inactive L w1 now ha
    refine ⟨h1, ?_, ?_⟩
    · rw [h2.l_eq, hs.l_eq]; rfl
    · rw [h2.entries_eq, hs.entries_eq]; rfl

/-- C4 at an example: the engine `exW8`, stopped, then a call of `Rotate`, a timer
    tick and a forced-rotation message. -/
theorem stop_makes_triggers_noops_witness :
    ∃ w1, run exLib (Stop exW8)
        [Event.callRotate 7, Event.loop (LoopMsg.tick 9) 9, Event.loop (LoopMsg.forceRotate 0) 11]
        = some w1 ∧
      w1.l = (Stop exW8).l ∧ w1.l.active = false ∧ w1.l.f = exW8.l.f ∧
      w1.fs.entries = exW8.fs.entries ∧ w1.fs.openFds = exW8.fs.openFds ∧
      (∀ t now, rotateLog exLib w1 t now = (none, w1)) ∧
      (∀ now, (Rotate exLib w1 now).1 = none ∧ (Rotate exLib w1 now).2.l.f = exW8.l.f ∧
        (Rotate exLib w1 now).2.fs.entries = exW8.fs.entries) :=
  stop_makes_triggers_noops exLib exW8
    [Event.callRotate 7, Event.loop (LoopMsg.tick 9) 9, Event.loop (LoopMsg.forceRotate 0) 11]
    (by decide)

/-- C5: for the engine `New` builds with format `"8"` (incrementing policy, counter
    at 0), and any sequence of calls of `getSuffix` with any instants and clock
    readings, the `n`-th suffix returned, counting from 0 and with `n` below the
    `2^63` values an `int64` counter takes before it wraps, is the decimal string
    of `n`. -/
theorem increment_suffix_is_decimal (L : Lib) (fs : FS) (logOut stdLogOut : Writer)
    (basePath : String) (interval sizeMb : Int) (calls : List (Time × Time)) (n : Nat)
    (hn : n < calls.length) (hb : n < 9223372036854775808) :
    (suffixSeq L (initWorld L fs logOut stdLogOut basePath interval sizeMb "8").l calls)[n]?
      = some (Nat.repr n) := by
  have hu : (initWorld L fs logOut stdLogOut basePath interval sizeMb "8").l.useIncrement
      = true := by
    show useIncrementOf "8" = true
    decide
  have := suffixSeq_increment L calls _ 0 n hu rfl hn (by omega)
  rw [this]
  simp

/-- C5 at an example: the third suffix, for calls with the instants 1, the sentinel 0 and 7. -/
theorem increment_suffix_is_decimal_witness :
    (suffixSeq exLib (initWorld exLib exFS Writer.other Writer.other "/tmp/x.log" 5 0 "8").l
      [(1, 1), (0, 5), (7, 7)])[2]? = some (Nat.repr 2) :=
  increment_suffix_is_decimal exLib exFS Writer.other Writer.other "/tmp/x.log" 5 0
    [(1, 1), (0, 5), (7, 7)] 2 (by decide) (by decide)

/-- C6: on a file system where the archive `/tmp/x.log.0` is left over, the path
    checks of `New(log, "/tmp/x.log", 5, 0, "8")` pass, the call of `Start` inside
    it fails to create the initial link and returns an error, and `New` still
    returns a nil error, with an engine that is not active. -/
theorem New_drops_error_of_Start :
    (exFSWith "/tmp/x.log.0" (Entry.file 7)).lookup (exLib.dirOf "/tmp/x.log")
      = some Entry.dir ∧
    (exFSWith "/tmp/x.log.0" (Entry.file 7)).lookup "/tmp/x.log" = none ∧
    (Start exLib exInitStale 5).map (fun r => r.1)
      = some (some (GoErr.errorf "error linking log file: " Errno.EEXIST)) ∧
    (New exLib (exFSWith "/tmp/x.log.0" (Entry.file 7)) Writer.other Writer.other 5
      "/tmp/x.log" 5 0 "8").map (fun r => r.toOption.map (fun w => w.l.active))
      = some (some false) := by
  decide

/-- C7, as stated, fails: on the active engine `exW8` built over a file system where
    the archive `/tmp/x.log.1` is left over, a second call of `Start` fails to create
    its link, returns the error, and the engine is still marked active. -/
theorem Start_failure_on_active_engine_stays_active :
    (exWorld (exFSWith "/tmp/x.log.1" (Entry.file 7)) "8").l.active = true ∧
    (Start exLib (exWorld (exFSWith "/tmp/x.log.1" (Entry.file 7)) "8") 6).map
        (fun r => (r.1, r.2.l.active))
      = some (some (GoErr.errorf "error linking log file: " Errno.EEXIST), true) := by
  decide

/-- C7, amended: if `Start` opens the backing file and then fails to create the
    initial hardlink, it returns an error and leaves the flag `active` as it was:
    an engine that was not active is not marked active. -/
theorem Start_link_failure_keeps_active_flag (L : Lib) (w : World) (now : Time)
    (fs1 : FS) (f : File) (e : Errno)
    (hopen : openFile L w.fs w.l.basePath true false = .ok (fs1, f))
    (hlink : (link L fs1 w.l.basePath
      (w.l.basePath ++ "." ++ (w.l.getSuffix L now now).1)).2 = some e) :
    ∃ w1, Start L w now = some (some (GoErr.errorf "error linking log file: " e), w1) ∧
      w1.l.active = w.l.active ∧ (w.l.active = false → w1.l.active = false) := by
  unfold Start
  rw [hopen]
  dsimp only
  split
  · rename_i fs2 e1 h1
    rw [h1] at hlink
    simp only [Option.some.injEq] at hlink
    subst hlink
    refine ⟨_, rfl, ?_, ?_⟩
    · exact getSuffix_active L w.l now now
    · intro h
      show (w.l.getSuffix L now now).2.active = false
      rw [getSuffix_active]; exact h
  · rename_i fs2 h1
    rw [h1] at hlink
    simp at hlink

/-- C7, amended, at an example: the first `Start` of an engine, called by `New` on a
    file system where the archive `/tmp/x.log.0` is left over. -/
theorem Start_link_failure_keeps_active_flag_witness :
    exInitStale.l.active = false ∧
    ∃ w1, Start exLib exInitStale 5
        = some (some (GoErr.errorf "error linking log file: " Errno.EEXIST), w1) ∧
      w1.l.active = exInitStale.l.active ∧
      (exInitStale.l.active = false → w1.l.active = false) :=
  ⟨by decide,
   Start_link_failure_keeps_active_flag exLib exInitStale 5 _ _ Errno.EEXIST rfl (by decide)⟩

/-- C8, as stated, fails: the format strings `"08"` and `"+8"` are not the literal
    `"8"`, and `New` selects incrementing suffixes for them. -/
theorem format_08_selects_increment :
    "08" ≠ "8" ∧ "+8" ≠ "8" ∧
    useIncrementOf "08" = true ∧ useIncrementOf "+8" = true ∧
    (newWorld exLib exFS "/tmp/x.log" "08").map (fun w => w.l.useIncrement) = some true ∧
    (newWorld exLib exFS "/tmp/x.log" "+8").map (fun w => w.l.useIncrement) = some true ∧
    (newWorld exLib exFS "/tmp/x.log" "+8").map (fun w => (w.l.getSuffix exLib 7 7).1)
      = some "1" := by
  decide

/-- C8, amended: the engine `New` returns uses incrementing suffixes if and only if
    `strconv.ParseInt(format, 10, 32)` yields 8, that is, if and only if the format
    string is an optional `+` sign, then any number of `0` digits, then the digit
    `8`; every other format string is treated as a time layout. -/
theorem increment_iff_format_parses_to_eight (L : Lib) (fs : FS) (logOut stdLogOut : Writer)
    (now : Time) (basePath : String) (interval sizeMb : Int) (format : String) (w : World)
    (hnew : New L fs logOut stdLogOut now basePath interval sizeMb format = some (.ok w)) :
    (w.l.useIncrement = true ↔
      ∃ k, format.data = zerosEight k ∨ format.data = '+' :: zerosEight k) ∧
    (w.l.useIncrement = true → ∀ t n, (w.l.getSuffix L t n).1 = sprintD w.l.incrementedSuffix) ∧
    (w.l.useIncrement = false →
      ∀ t n, (w.l.getSuffix L t n).1 = L.format (if t = unixMicroZero then n else t) w.l.format)
    := by
  rw [New_useIncrement L fs logOut stdLogOut now basePath interval sizeMb format w hnew]
  refine ⟨useIncrementOf_iff format, ?_, ?_⟩
  · intro h t n
    have h1 : w.l.useIncrement = true := by
      rw [New_useIncrement L fs logOut stdLogOut now basePath interval sizeMb format w hnew]
      exact h
    unfold Logrotate.getSuffix
    simp [h1]
  · intro h t n
    have h1 : w.l.useIncrement = false := by
      rw [New_useIncrement L fs logOut stdLogOut now basePath interval sizeMb format w hnew]
      exact h
    unfold Logrotate.getSuffix
    simp [h1]

/-- C8, amended, at an example: the engine of `New(log, "/tmp/x.log", 5, 0, "8")`. -/
theorem increment_iff_format_parses_to_eight_witness :
    (exW8.l.useIncrement = true ↔
      ∃ k, "8".data = zerosEight k ∨ "8".data = '+' :: zerosEight k) ∧
    (exW8.l.useIncrement = true →
      ∀ t n, (exW8.l.getSuffix exLib t n).1 = sprintD exW8.l.incrementedSuffix) ∧
    (exW8.l.useIncrement = false →
      ∀ t n, (exW8.l.getSuffix exLib t n).1
        = exLib.format (if t = unixMicroZero then n else t) exW8.l.format) :=
  increment_iff_format_parses_to_eight exLib exFS Writer.other Writer.other 5 "/tmp/x.log" 5 0
    "8" exW8 rfl

/-- C9: on an active engine, if opening the new archive file fails, the rotation
    step returns a non-nil error that wraps the cause, the current handle `l.f` is
    the same, the file system, with its paths, inodes, contents and open
    descriptors, is unchanged, so the handle is open if it was, and the output
    destinations of the logrus logger and of the standard logger are unchanged. -/
theorem rotateLog_open_failure_changes_nothing (L : Lib) (w : World) (t now : Time) (e : Errno)
    (hact : w.l.active = true)
    (hopen : openFile L w.fs (w.l.basePath ++ "." ++ (w.l.getSuffix L t now).1) true true
      = .error e) :
    (rotateLog L w t now).1
      = some (GoErr.errorf "log rotation error, cannot create new file: " e) ∧
    (rotateLog L w t now).2.l.f = w.l.f ∧
    (rotateLog L w t now).2.fs = w.fs ∧
    (rotateLog L w t now).2.logOut = w.logOut ∧
    (rotateLog L w t now).2.stdLogOut = w.stdLogOut ∧
    (rotateLog L w t now).2.l.active = true := by
  rw [rotateLog_open_error L w t now e hact hopen]
  refine ⟨rfl, ?_, rfl, rfl, rfl, ?_⟩
  · exact getSuffix_f L w.l t now
  · show (w.l.getSuffix L t now).2.active = true
    rw [getSuffix_active]; exact hact

/-- C9 at an example: the archive path `/tmp/x.log.1` of the next rotation is a directory. -/
theorem rotateLog_open_failure_changes_nothing_witness :
    exW8Dir.l.active = true ∧
    openFile exLib exW8Dir.fs
      (exW8Dir.l.basePath ++ "." ++ (exW8Dir.l.getSuffix exLib 7 7).1) true true
      = .error Errno.EISDIR ∧
    (rotateLog exLib exW8Dir 7 7).1
      = some (GoErr.errorf "log rotation error, cannot create new file: " Errno.EISDIR) ∧
    (rotateLog exLib exW8Dir 7 7).2.l.f = exW8Dir.l.f ∧
    (rotateLog exLib exW8Dir 7 7).2.fs = exW8Dir.fs ∧
    (rotateLog exLib exW8Dir 7 7).2.logOut = exW8Dir.logOut ∧
    (rotateLog exLib exW8Dir 7 7).2.stdLogOut = exW8Dir.stdLogOut ∧
    (rotateLog exLib exW8Dir 7 7).2.l.active = true :=
  ⟨by decide, rfl,
   rotateLog_open_failure_changes_nothing exLib exW8Dir 7 7 Errno.EISDIR (by decide) rfl⟩

/-- C10, as stated, fails: a timer tick whose rotation step fails (the archive path
    `/tmp/x.log.1` is a directory) ends the loop, and a later call of `Rotate()`
    still performs a rotation: it returns nil, creates the archive `/tmp/x.log.2`
    and replaces the handle. -/
theorem Rotate_still_rotates_after_loop_died :
    exW8Dir.loopAlive = true ∧ exW8Dir.l.f = some ⟨3, 8⟩ ∧
    (loopRotateErr exLib exW8Dir (LoopMsg.tick 9) 9).isSome = true ∧
    (rotate exLib exW8Dir (LoopMsg.tick 9) 9).loopAlive = false ∧
    (rotate exLib exW8Dir (LoopMsg.tick 9) 9).l.f = some ⟨3, 8⟩ ∧
    (rotate exLib exW8Dir (LoopMsg.tick 9) 9).fs.lookup "/tmp/x.log.2" = none ∧
    (Rotate exLib (rotate exLib exW8Dir (LoopMsg.tick 9) 9) 10).1 = none ∧
    (Rotate exLib (rotate exLib exW8Dir (LoopMsg.tick 9) 9) 10).2.l.f = some ⟨4, 9⟩ ∧
    (Rotate exLib (rotate exLib exW8Dir (LoopMsg.tick 9) 9) 10).2.fs.lookup "/tmp/x.log.2"
      = some (Entry.file 9) ∧
    (Rotate exLib (rotate exLib exW8Dir (LoopMsg.tick 9) 9) 10).2.fs.lookup "/tmp/x.log"
      = some (Entry.file 9) := by
  decide

/-- C10, amended: once a rotation step run by the loop of `rotate` has returned an
    error, the loop has ended; from then on, whatever is called or sent, the loop
    stays ended, and no timer tick and no message on the forced-rotation channel
    changes anything: the loop performs no rotation again. (A call of `Rotate()`
    does not go through the loop and still runs the rotation step.) -/
theorem dead_loop_is_terminal (L : Lib) (w0 : World) (m : LoopMsg) (now : Time)
    (halive : w0.loopAlive = true)
    (herr : (loopRotateErr L w0 m now).isSome = true) :
    (rotate L w0 m now).loopAlive = false ∧
    ∀ evs w, run L (rotate L w0 m now) evs = some w →
      w.loopAlive = false ∧ ∀ m1 now1, rotate L w m1 now1 = w := by
  have hdead : (rotate L w0 m now).loopAlive = false := by
    unfold rotate
    simp only [halive, not_true_eq_false, if_false]
    cases m with
    | appDone => rfl
    | tick t =>
      simp only [loopRotateErr] at herr
      dsimp only
      rw [if_pos herr]
    | forceRotate t =>
      simp only [loopRotateErr] at herr
      dsimp only
      rw [if_pos herr]
  refine ⟨hdead, ?_⟩
  intro evs w hr
  have hw := run_dead L evs _ w hdead hr
  exact ⟨hw, fun m1 now1 => rotate_dead L w m1 now1 hw⟩

/-- C10, amended, at an example: the failing tick of `exW8Dir`, then a call of
    `Rotate()`, a tick and a call of `Start()`. -/
theorem dead_loop_is_terminal_witness :
    exW8Dir.loopAlive = true ∧
    (loopRotateErr exLib exW8Dir (LoopMsg.tick 9) 9).isSome = true ∧
    (rotate exLib exW8Dir (LoopMsg.tick 9) 9).loopAlive = false ∧
    (exRun (rotate exLib exW8Dir (LoopMsg.tick 9) 9)
      [Event.callRotate 10, Event.loop (LoopMsg.tick 14) 14, Event.callStart 15]).loopAlive = false ∧
    ∀ m1 now1, rotate exLib (exRun (rotate exLib exW8Dir (LoopMsg.tick 9) 9)
        [Event.callRotate 10, Event.loop (LoopMsg.tick 14) 14, Event.callStart 15]) m1 now1
      = exRun (rotate exLib exW8Dir (LoopMsg.tick 9) 9)
        [Event.callRotate 10, Event.loop (LoopMsg.tick 14) 14, Event.callStart 15] :=
  ⟨by decide, by decide,
   (dead_loop_is_terminal exLib exW8Dir (LoopMsg.tick 9) 9 (by decide) (by decide)).1,
   ((dead_loop_is_terminal exLib exW8Dir (LoopMsg.tick 9) 9 (by decide) (by decide)).2
      [Event.callRotate 10, Event.loop (LoopMsg.tick 14) 14, Event.callStart 15] _ rfl).1,
   ((dead_loop_is_terminal exLib exW8Dir (LoopMsg.tick 9) 9 (by decide) (by decide)).2
      [Event.callRotate 10, Event.loop (LoopMsg.tick 14) 14, Event.callStart 15] _ rfl).2⟩
end Logrusrotate
